import Mathlib

/-!
Verification of the commit-line parser, commit filter, type grouper and
markdown renderer of `changelog-thing.js`.

Modelling conventions (shallow embedding):
* JavaScript strings are modelled as `List Char` (`JStr`), with the string
  operations used by the program (`String.prototype.split` with and without
  a limit, `trim`, `substring`, `repeat`, template-literal concatenation,
  the specific regular expressions appearing in the source) implemented as
  executable Lean functions over `List Char`.  The functions are faithful
  for the ASCII data the program manipulates; `'\n'` is the only line
  terminator (the program itself splits the log on `'\n'` and its markdown
  templates only ever contain `'\n'`).
* A JavaScript value that may be a string or `undefined` (an out-of-range
  array index such as `parts[4]`, an absent regex capture group) is
  modelled as `Option JStr`; interpolating such a value into a template
  renders `undefined` exactly as JavaScript does.
* `msg(m, status)` prints to stderr and terminates the process when
  `status` is non-null.  `parseLine`'s observable outcome is therefore an
  inductive `ParseResult`: process exit (with the exit code and the text
  logged), a `TypeError` crash (reading `.split` of an `undefined` field),
  or a returned commit record, each carrying the stderr lines produced.
* Regular expressions supplied by the *user* (the `--filter-patterns`
  option) are arbitrary; they are modelled as opaque Boolean predicates on
  lines, which is all `filterLinesByPatterns` observes of them.
-/

/-- JavaScript strings are modelled as lists of characters. -/
abbrev JStr := List Char

/-- Coercion from Lean string literals into the model. -/
def jstr (s : String) : JStr := s.toList

/-- Whitespace class used by JavaScript `trim` and `\s` (ASCII fragment). -/
def jsWs (c : Char) : Bool :=
  c = ' ' || c = '\t' || c = '\n' || c = '\r' || c = '\x0b' || c = '\x0c'

/-- Characters matched by `[ \t]` in `stripIndent`'s regular expressions. -/
def jsBlank (c : Char) : Bool := c = ' ' || c = '\t'

/-- Characters matched by `\w` (JavaScript word characters, ASCII). -/
def jsWordChar (c : Char) : Bool := c.isAlphanum || c = '_'

/-- Fuelled worker for `String.prototype.split`: returns the first field
and the list of remaining fields, scanning left to right for the leftmost
non-overlapping occurrences of the separator.  The fuel is always called
with at least the length of the string, so the `0` fallback is unreachable. -/
def jsSplitGo (sep : List Char) : Nat → List Char → List Char × List (List Char)
  | _, [] => ([], [])
  | 0, s => (s, [])
  | fuel + 1, c :: rest =>
    if sep.isPrefixOf (c :: rest) then
      ([], (jsSplitGo sep fuel (rest.drop (sep.length - 1))).1 ::
           (jsSplitGo sep fuel (rest.drop (sep.length - 1))).2)
    else
      (c :: (jsSplitGo sep fuel rest).1, (jsSplitGo sep fuel rest).2)

/-- Worker at its canonical fuel. -/
def jsSplitC (sep s : List Char) : List Char × List (List Char) :=
  jsSplitGo sep s.length s

/-- JavaScript `str.split(sep)` for a string separator: with an empty
separator the string splits into its characters, otherwise into the fields
between leftmost non-overlapping occurrences of `sep`. -/
def jsSplit (sep s : List Char) : List (List Char) :=
  if sep.isEmpty then s.map (fun c => [c])
  else (jsSplitC sep s).1 :: (jsSplitC sep s).2

/-- JavaScript `arr.join(sep)`. -/
def jjoin (sep : JStr) : List JStr → JStr
  | [] => []
  | [x] => x
  | x :: y :: rest => x ++ sep ++ jjoin sep (y :: rest)

/-- JavaScript `str.trim()` (ASCII whitespace). -/
def jtrim (s : JStr) : JStr :=
  ((s.dropWhile jsWs).reverse.dropWhile jsWs).reverse

-- Sanity checks of the split model against JavaScript behaviour.
example : jsSplit (jstr "::@::") (jstr "a::@::b::@::c") = [jstr "a", jstr "b", jstr "c"] := by
  decide
example : jsSplit (jstr ":") (jstr ":") = [[], []] := by decide
example : jsSplit (jstr ":") [] = [[]] := by decide
example : jsSplit (jstr "::@::") (jstr ":::@::") = [jstr ":", []] := by decide
example : jtrim (jstr "  a b ") = jstr "a b" := by decide

/-! Constants of the script (lines 7-22 of the source). -/

/-- Field delimiter `DELIM = '::@::'`. -/
def DELIM : JStr := jstr "::@::"

/-- Log format string `FMT` handed to the external log command. -/
def FMT : JStr := jstr "%an::@::%d::@::%s::@::%cr::@::%H"

/-- Expected field count `PARTS = (FMT.match(/%/g) || []).length`. -/
def PARTS : Nat := (FMT.filter (fun c => c = '%')).length

/-- Exit code `EXIT.SUC`. -/
def EXIT_SUC : Nat := 0
/-- Exit code `EXIT.OPT`. -/
def EXIT_OPT : Nat := 1
/-- Exit code `EXIT.SYS`. -/
def EXIT_SYS : Nat := 2
/-- Exit code `EXIT.GIT`. -/
def EXIT_GIT : Nat := 3
/-- Exit code `EXIT.UNK`. -/
def EXIT_UNK : Nat := 4

example : PARTS = 5 := by decide

/-! The commit-line parser (`parseLine`, source lines 76-102). -/

/-- Classification derived from the commit subject: `{ title, subtitle }`.
The subtitle is `Option` because capture group 3 of the classifying regex
can be absent (`undefined`). -/
structure TypeInfo where
  title : JStr
  subtitle : Option JStr
deriving DecidableEq, Repr

/-- Commit record returned by `parseLine`.  The raw positional fields are
`Option JStr` because JavaScript yields `undefined` for an out-of-range
index (`parts[3]`, `parts[4]` on a short line); `message` is always a
string since the parser crashes earlier when `parts[2]` is absent. -/
structure Commit where
  author : Option JStr
  branches : Option JStr
  message : JStr
  age : Option JStr
  sha : Option JStr
  type : TypeInfo
deriving DecidableEq, Repr

/-- Observable outcome of a `parseLine` call.  Each constructor carries the
lines written to stderr by `msg` during the call. -/
inductive ParseResult where
  /-- The process terminated via `process.exit` inside `msg`. -/
  | exited (logged : List JStr) (code : Nat) : ParseResult
  /-- The call crashed with an uncaught `TypeError` (reading `.split` of
  `undefined` when the line has fewer than three fields). -/
  | typeError (logged : List JStr) : ParseResult
  /-- The call returned a commit record. -/
  | parsed (logged : List JStr) (c : Commit) : ParseResult
deriving DecidableEq, Repr

/-- Message logged by `msg` for a malformed line. -/
def invalidLineMsg (line : JStr) : JStr := jstr "Invalid line: " ++ line

/-- Embedding of `msgSplit[0].match(/^([^\(]*)(\(([^\)]*)\))?/)`:
capture group 1 is the (possibly empty) run of non-`'('` characters at the
start; the optional group matches when that run is followed by `'('` with a
later `')'`, and group 3 is then the text strictly between that `'('` and
the first following `')'`. -/
def matchTypeInfo (s : JStr) : TypeInfo :=
  let title := s.takeWhile (fun c => c ≠ '(')
  match s.dropWhile (fun c => c ≠ '(') with
  | [] => { title := title, subtitle := none }
  | _ :: after =>
    if after.dropWhile (fun c => c ≠ ')') = [] then
      { title := title, subtitle := none }
    else
      { title := title, subtitle := some (after.takeWhile (fun c => c ≠ ')')) }

/-- Continuation of `parseLine` after the field-count check: reads
`parts[2]` (TypeError when absent), splits the subject on `':'` with limit
2, classifies, and builds the record. -/
def parseLineRest (parts : List JStr) (logs : List JStr) : ParseResult :=
  match parts.get? 2 with
  | none => ParseResult.typeError logs
  | some message =>
    match (jsSplit (jstr ":") message).take 2 with
    | [left, right] =>
      ParseResult.parsed logs
        { author := parts.get? 0
          branches := parts.get? 1
          message := jtrim right
          age := parts.get? 3
          sha := parts.get? 4
          type := matchTypeInfo left }
    | _ =>
      ParseResult.parsed logs
        { author := parts.get? 0
          branches := parts.get? 1
          message := message
          age := parts.get? 3
          sha := parts.get? 4
          type := { title := jstr "misc", subtitle := none } }

/-- Embedding of `parseLine(line, ignoreErrors)` (source lines 76-102).
When the split does not yield `PARTS` fields the source calls
`msg('Invalid line: ...', ignoreErrors ? EXIT.GIT : null)`: with
`ignoreErrors` set this *exits* the process with `EXIT.GIT`; with it unset
it only logs and execution falls through to the field accesses. -/
def parseLine (line : JStr) (ignoreErrors : Bool) : ParseResult :=
  let parts := jsSplit DELIM line
  if parts.length ≠ PARTS then
    if ignoreErrors then
      ParseResult.exited [invalidLineMsg line] EXIT_GIT
    else
      parseLineRest parts [invalidLineMsg line]
  else
    parseLineRest parts []

example :
    parseLine (jstr "Jane Doe::@:: (HEAD -> main)::@::feat(api): add health check::@::2 days ago::@::abc1234") false
      = ParseResult.parsed []
          { author := some (jstr "Jane Doe")
            branches := some (jstr " (HEAD -> main)")
            message := jstr "add health check"
            age := some (jstr "2 days ago")
            sha := some (jstr "abc1234")
            type := { title := jstr "feat", subtitle := some (jstr "api") } } := by
  decide

example : parseLine (jstr "bad line") true = ParseResult.exited [jstr "Invalid line: bad line"] EXIT_GIT := by decide
example : parseLine (jstr "bad line") false = ParseResult.typeError [jstr "Invalid line: bad line"] := by decide

/-! The commit filter (`filterLinesByPatterns`, source lines 104-109). -/

/-- Embedding of `filterLinesByPatterns(line, regexes)`: the loop returns
`false` at the first pattern that tests true on the line, `true` when none
does.  User-supplied regexes are modelled as opaque predicates. -/
def filterLinesByPatterns (line : JStr) (regexes : List (JStr → Bool)) : Bool :=
  match regexes with
  | [] => true
  | r :: rest => if r line then false else filterLinesByPatterns line rest

/-! The grouper (`sortCommitsByType`, source lines 111-121). -/

/-- Effect of `sorted[long].push(c)` guarded by the `hasOwnProperty` check
on a string-keyed object in insertion order: append to the entry with that
key when present, otherwise create the entry at the end. -/
def pushTo : List (JStr × List Commit) → JStr → Commit → List (JStr × List Commit)
  | [], long, c => [(long, [c])]
  | (l, g) :: rest, long, c =>
    if l = long then (l, g ++ [c]) :: rest else (l, g) :: pushTo rest long c

/-- Embedding of `sortCommitsByType(types, commits)`: for each configured
`(short, long)` pair in order, push every commit whose type title equals
`short` onto the group keyed by `long`. -/
def sortCommitsByType (types : List (JStr × JStr)) (commits : List Commit) :
    List (JStr × List Commit) :=
  types.foldl
    (fun sorted kv =>
      (commits.filter (fun c => c.type.title == kv.1)).foldl
        (fun s c => pushTo s kv.2 c) sorted)
    []

/-- Lookup of the group stored under a label (absent labels hold nothing). -/
def groupOf (long : JStr) : List (JStr × List Commit) → List Commit
  | [] => []
  | (l, g) :: rest => if l = long then g else groupOf long rest

/-! Basic lemmas about the split/join model. -/

theorem jsSplitGo_eq_C (sep : List Char) :
    ∀ (fuel : Nat) (s : List Char), s.length ≤ fuel → jsSplitGo sep fuel s = jsSplitC sep s := by
  intro fuel
  induction fuel using Nat.strong_induction_on with
  | _ fuel ih =>
    intro s hs
    match fuel, s with
    | fuel, [] =>
      cases fuel <;> simp [jsSplitGo, jsSplitC]
    | 0, c :: rest =>
      simp at hs
    | fuel + 1, c :: rest =>
      simp only [List.length_cons, Nat.add_le_add_iff_right] at hs
      show jsSplitGo sep (fuel + 1) (c :: rest) = jsSplitGo sep (c :: rest).length (c :: rest)
      simp only [List.length_cons, jsSplitGo]
      have hdrop : (rest.drop (sep.length - 1)).length ≤ rest.length := by
        simp [List.length_drop]
      rw [ih fuel (by omega) (rest.drop (sep.length - 1)) (le_trans hdrop hs),
        ih rest.length (by omega) (rest.drop (sep.length - 1)) hdrop,
        ih fuel (by omega) rest hs]
      rfl

theorem jsSplitC_nil (sep : List Char) : jsSplitC sep [] = ([], []) := rfl

theorem jsSplitC_cons (sep : List Char) (c : Char) (rest : List Char) :
    jsSplitC sep (c :: rest) =
      if sep.isPrefixOf (c :: rest) then
        ([], (jsSplitC sep (rest.drop (sep.length - 1))).1 ::
             (jsSplitC sep (rest.drop (sep.length - 1))).2)
      else
        (c :: (jsSplitC sep rest).1, (jsSplitC sep rest).2) := by
  show jsSplitGo sep (rest.length + 1) (c :: rest) = _
  simp only [jsSplitGo]
  rw [jsSplitGo_eq_C sep rest.length (rest.drop (sep.length - 1)) (by simp [List.length_drop]),
    jsSplitGo_eq_C sep rest.length rest (le_refl _)]

theorem jsSplitC_single_cons (c d : Char) (rest : List Char) :
    jsSplitC [c] (d :: rest) =
      if d = c then ([], (jsSplitC [c] rest).1 :: (jsSplitC [c] rest).2)
      else (d :: (jsSplitC [c] rest).1, (jsSplitC [c] rest).2) := by
  rw [jsSplitC_cons]
  simp only [List.isPrefixOf, List.length_singleton, Nat.sub_self, List.drop_zero,
    Bool.and_true]
  by_cases h : d = c
  · simp [h]
  · simp [h, Ne.symm h, beq_iff_eq]

theorem jsSplitC_not_mem {c : Char} {s : List Char} (hc : c ∉ s) :
    jsSplitC [c] s = (s, []) := by
  induction s with
  | nil => rfl
  | cons d rest ih =>
    have hd : ¬ d = c := fun h => hc (by simp [h])
    rw [jsSplitC_single_cons]
    simp [hd, ih (fun h => hc (List.mem_cons_of_mem _ h))]

theorem jsSplitC_append (c : Char) (a t : List Char) :
    jsSplitC [c] (a ++ c :: t)
      = ((jsSplitC [c] a).1,
         (jsSplitC [c] a).2 ++ (jsSplitC [c] t).1 :: (jsSplitC [c] t).2) := by
  induction a with
  | nil =>
    simp [jsSplitC_single_cons, jsSplitC_nil]
  | cons x a ih =>
    by_cases hx : x = c
    · subst hx
      rw [List.cons_append, jsSplitC_single_cons, jsSplitC_single_cons]
      simp [ih]
    · rw [List.cons_append, jsSplitC_single_cons, jsSplitC_single_cons]
      simp [hx, ih]

theorem jsSplit_single_not_mem {c : Char} {s : List Char} (hc : c ∉ s) :
    jsSplit [c] s = [s] := by
  simp [jsSplit, jsSplitC_not_mem hc, List.isEmpty]

theorem jsSplit_single_append (c : Char) (a t : List Char) :
    jsSplit [c] (a ++ c :: t) = jsSplit [c] a ++ jsSplit [c] t := by
  simp [jsSplit, List.isEmpty, jsSplitC_append]

theorem jjoin_cons_cons (sep x : JStr) (p : JStr) (ps : List JStr) :
    jjoin sep ((x ++ p) :: ps) = x ++ jjoin sep (p :: ps) := by
  cases ps <;> simp [jjoin]

theorem jjoin_jsSplitC (sep : List Char) (hne : sep ≠ []) :
    ∀ s, jjoin sep ((jsSplitC sep s).1 :: (jsSplitC sep s).2) = s := by
  suffices H : ∀ (n : Nat) (s : List Char), s.length ≤ n →
      jjoin sep ((jsSplitC sep s).1 :: (jsSplitC sep s).2) = s by
    intro s
    exact H s.length s (le_refl _)
  intro n
  induction n using Nat.strong_induction_on with
  | _ n ih =>
    intro s hs
    match s with
    | [] => rfl
    | c :: rest =>
      rw [jsSplitC_cons]
      by_cases hp : sep.isPrefixOf (c :: rest)
      · have hdec : c :: rest = sep ++ (c :: rest).drop sep.length := by
          obtain ⟨t, ht⟩ := List.isPrefixOf_iff_prefix.mp hp
          rw [← ht, List.drop_left]
        obtain ⟨k, hk⟩ : ∃ k, sep.length = k + 1 := by
          cases hsep : sep with
          | nil => exact absurd hsep hne
          | cons x xs => exact ⟨xs.length, by simp⟩
        have hdropeq : (c :: rest).drop sep.length = rest.drop (sep.length - 1) := by
          rw [hk]
          simp
        have hlt : (rest.drop (sep.length - 1)).length < (c :: rest).length := by
          simp [List.length_drop]
          omega
        simp only [hp, if_true]
        have ihx := ih (rest.drop (sep.length - 1)).length (lt_of_lt_of_le hlt hs)
          (rest.drop (sep.length - 1)) (le_refl _)
        calc jjoin sep ([] :: (jsSplitC sep (rest.drop (sep.length - 1))).1 ::
              (jsSplitC sep (rest.drop (sep.length - 1))).2)
            = [] ++ sep ++ jjoin sep ((jsSplitC sep (rest.drop (sep.length - 1))).1 ::
              (jsSplitC sep (rest.drop (sep.length - 1))).2) := by rfl
          _ = sep ++ rest.drop (sep.length - 1) := by rw [ihx]; rfl
          _ = c :: rest := by rw [← hdropeq, ← hdec]
      · simp only [hp, if_false]
        have ihx := ih rest.length
          (by simp only [List.length_cons] at hs; omega) rest (le_refl _)
        show jjoin sep ((c :: (jsSplitC sep rest).1) :: (jsSplitC sep rest).2) = c :: rest
        have : (c :: (jsSplitC sep rest).1) = [c] ++ (jsSplitC sep rest).1 := rfl
        rw [this, jjoin_cons_cons, ihx]
        rfl

theorem jjoin_jsSplit (sep s : List Char) (hne : sep ≠ []) :
    jjoin sep (jsSplit sep s) = s := by
  have : sep.isEmpty = false := by
    cases sep with
    | nil => exact absurd rfl hne
    | cons x xs => rfl
  rw [jsSplit, this]
  simp only [Bool.false_eq_true, if_false]
  exact jjoin_jsSplitC sep hne s

theorem jsSplit_jjoin_single (c : Char) :
    ∀ ls : List JStr, (∀ l ∈ ls, c ∉ l) → ls ≠ [] → jsSplit [c] (jjoin [c] ls) = ls := by
  intro ls
  induction ls with
  | nil => intro _ h; exact absurd rfl h
  | cons x rest ih =>
    intro hmem _
    cases rest with
    | nil =>
      show jsSplit [c] x = [x]
      exact jsSplit_single_not_mem (hmem x (by simp))
    | cons y rest' =>
      have : jjoin [c] (x :: y :: rest') = x ++ c :: jjoin [c] (y :: rest') := by
        simp [jjoin]
      rw [this, jsSplit_single_append, jsSplit_single_not_mem (hmem x (by simp)),
        ih (fun l hl => hmem l (by simp [hl])) (by simp)]
      rfl

theorem takeWhile_append_pos {α : Type} (p : α → Bool) (a b : List α)
    (ha : ∀ x ∈ a, p x = true) :
    (a ++ b).takeWhile p = a ++ b.takeWhile p := by
  induction a with
  | nil => simp
  | cons x a ih =>
    have hx := ha x (by simp)
    simp only [List.cons_append, List.takeWhile_cons, hx, if_true]
    rw [ih (fun y hy => ha y (by simp [hy]))]

theorem dropWhile_append_pos {α : Type} (p : α → Bool) (a b : List α)
    (ha : ∀ x ∈ a, p x = true) :
    (a ++ b).dropWhile p = b.dropWhile p := by
  induction a with
  | nil => simp
  | cons x a ih =>
    have hx := ha x (by simp)
    simp only [List.cons_append, List.dropWhile_cons, hx, if_true]
    exact ih (fun y hy => ha y (by simp [hy]))

theorem jtrim_ws_cons (c : Char) (s : JStr) (hc : jsWs c = true) :
    jtrim (c :: s) = jtrim s := by
  simp [jtrim, List.dropWhile_cons, hc]

theorem jsSplit_pair (c : Char) (a b : JStr) (hca : c ∉ a) (hcb : c ∉ b) :
    jsSplit [c] (a ++ c :: b) = [a, b] := by
  rw [jsSplit_single_append, jsSplit_single_not_mem hca, jsSplit_single_not_mem hcb]
  rfl

theorem jsSplitC_fst (c : Char) (s : List Char) :
    (jsSplitC [c] s).1 = s.takeWhile (fun d => d ≠ c) := by
  induction s with
  | nil => rfl
  | cons d rest ih =>
    rw [jsSplitC_single_cons]
    by_cases hd : d = c
    · simp [hd]
    · simp [hd, List.takeWhile_cons, ih]

theorem jsSplitC_snd_ne_nil (c : Char) (s : List Char) (hc : c ∈ s) :
    (jsSplitC [c] s).2 ≠ [] := by
  induction s with
  | nil => cases hc
  | cons d rest ih =>
    rw [jsSplitC_single_cons]
    by_cases hd : d = c
    · simp [hd]
    · have : c ∈ rest := by
        cases List.mem_cons.mp hc with
        | inl h => exact absurd h.symm hd
        | inr h => exact h
      simp [hd, ih this]

/-- Helper: on a five-field split, the length check passes and nothing is
logged. -/
theorem parseLine_five (line p0 p1 p2 p3 p4 : JStr) (ign : Bool)
    (h : jsSplit DELIM line = [p0, p1, p2, p3, p4]) :
    parseLine line ign = parseLineRest [p0, p1, p2, p3, p4] [] := by
  have hP : PARTS = 5 := by decide
  simp [parseLine, h, hP]

/-- Helper: reduction of `parseLineRest` when the subject splits in two. -/
theorem parseLineRest_pair (p0 p1 p2 p3 p4 l r : JStr) (logs : List JStr)
    (h : (jsSplit (jstr ":") p2).take 2 = [l, r]) :
    parseLineRest [p0, p1, p2, p3, p4] logs
      = ParseResult.parsed logs
          { author := some p0
            branches := some p1
            message := jtrim r
            age := some p3
            sha := some p4
            type := matchTypeInfo l } := by
  unfold parseLineRest
  simp only [List.get?]
  rw [h]

/-- Helper: reduction of `parseLineRest` when the subject has no colon. -/
theorem parseLineRest_single (p0 p1 p2 p3 p4 : JStr) (logs : List JStr)
    (h : (jsSplit (jstr ":") p2).take 2 = [p2]) :
    parseLineRest [p0, p1, p2, p3, p4] logs
      = ParseResult.parsed logs
          { author := some p0
            branches := some p1
            message := p2
            age := some p3
            sha := some p4
            type := { title := jstr "misc", subtitle := none } } := by
  unfold parseLineRest
  simp only [List.get?]
  rw [h]

/-- Helper: on a well-formed five-field line whose subject contains no
colon, `parseLine` returns the record with the raw fields, title `misc`
and no subtitle, logging nothing. -/
theorem parseLine_no_colon (line au br subj d e : JStr) (ign : Bool)
    (h : jsSplit DELIM line = [au, br, subj, d, e]) (hnc : ':' ∉ subj) :
    parseLine line ign
      = ParseResult.parsed []
          { author := some au
            branches := some br
            message := subj
            age := some d
            sha := some e
            type := { title := jstr "misc", subtitle := none } } := by
  have hsplit1 : jsSplit (jstr ":") subj = [subj] := by
    have hc : jstr ":" = [':'] := by decide
    rw [hc]
    exact jsSplit_single_not_mem hnc
  rw [parseLine_five line au br subj d e ign h,
    parseLineRest_single au br subj d e [] (by rw [hsplit1]; rfl)]

/-- Helper: on a well-formed five-field line whose subject has the shape
`ty(sc): ms` with no colon in `ty`, `sc` or `ms`, no `'('` in `ty` and no
`')'` in `sc`, `parseLine` returns title `ty`, subtitle `sc` and the
trimmed message. -/
theorem parseLine_typed (line au br ty sc ms d e : JStr) (ign : Bool)
    (h : jsSplit DELIM line = [au, br, ty ++ jstr "(" ++ sc ++ jstr "): " ++ ms, d, e])
    (ht1 : ':' ∉ ty) (ht2 : '(' ∉ ty) (hs1 : ':' ∉ sc) (hs2 : ')' ∉ sc) (hm : ':' ∉ ms) :
    parseLine line ign
      = ParseResult.parsed []
          { author := some au
            branches := some br
            message := jtrim ms
            age := some d
            sha := some e
            type := { title := ty, subtitle := some sc } } := by
  have hP : PARTS = 5 := by decide
  have hshape : ty ++ jstr "(" ++ sc ++ jstr "): " ++ ms
      = (ty ++ '(' :: (sc ++ [')'])) ++ ':' :: (' ' :: ms) := by
    have h1 : jstr "(" = ['('] := by decide
    have h2 : jstr "): " = [')', ':', ' '] := by decide
    rw [h1, h2]
    simp
  have hnc1 : ':' ∉ ty ++ '(' :: (sc ++ [')']) := by
    intro hmem
    rcases List.mem_append.mp hmem with h' | h'
    · exact ht1 h'
    · rcases List.mem_cons.mp h' with h'' | h''
      · cases h''
      · rcases List.mem_append.mp h'' with h3 | h3
        · exact hs1 h3
        · simp at h3
  have hnc2 : ':' ∉ ' ' :: ms := by
    intro hmem
    rcases List.mem_cons.mp hmem with h' | h'
    · cases h'
    · exact hm h'
  have hsplit1 : jsSplit (jstr ":") (ty ++ jstr "(" ++ sc ++ jstr "): " ++ ms)
      = [ty ++ '(' :: (sc ++ [')']), ' ' :: ms] := by
    have hc : jstr ":" = [':'] := by decide
    rw [hc, hshape]
    exact jsSplit_pair ':' _ _ hnc1 hnc2
  have hmatch : matchTypeInfo (ty ++ '(' :: (sc ++ [')'])) =
      { title := ty, subtitle := some sc } := by
    unfold matchTypeInfo
    have htake : (ty ++ '(' :: (sc ++ [')'])).takeWhile (fun c => c ≠ '(') = ty := by
      rw [takeWhile_append_pos _ ty _ (fun x hx => by
        simp only [decide_eq_true_eq]
        intro hEq
        exact ht2 (hEq ▸ hx))]
      simp [List.takeWhile_cons]
    have hdrop : (ty ++ '(' :: (sc ++ [')'])).dropWhile (fun c => c ≠ '(') =
        '(' :: (sc ++ [')']) := by
      rw [dropWhile_append_pos _ ty _ (fun x hx => by
        simp only [decide_eq_true_eq]
        intro hEq
        exact ht2 (hEq ▸ hx))]
      simp [List.dropWhile_cons]
    rw [htake, hdrop]
    have hdrop2 : (sc ++ [')']).dropWhile (fun c => c ≠ ')') = [')'] := by
      rw [dropWhile_append_pos _ sc _ (fun x hx => by
        simp only [decide_eq_true_eq]
        intro hEq
        exact hs2 (hEq ▸ hx))]
      simp [List.dropWhile_cons]
    have htake2 : (sc ++ [')']).takeWhile (fun c => c ≠ ')') = sc := by
      rw [takeWhile_append_pos _ sc _ (fun x hx => by
        simp only [decide_eq_true_eq]
        intro hEq
        exact hs2 (hEq ▸ hx))]
      simp [List.takeWhile_cons]
    simp only [ne_eq, decide_not] at hdrop2 htake2 ⊢
    rw [hdrop2]
    simp [htake2]
  have htrim : jtrim (' ' :: ms) = jtrim ms := jtrim_ws_cons ' ' ms (by decide)
  rw [parseLine_five line au br _ d e ign h,
    parseLineRest_pair au br _ d e (ty ++ '(' :: (sc ++ [')'])) (' ' :: ms) []
      (by rw [hsplit1]; rfl),
    hmatch, htrim]

/-! Claims C1, C2, C3, C7 and C9: behaviour of the parser. -/

/-- Claim C1 (code evaluation at the failing input): for a line that does
not split into five fields, the source's `msg(..., ignoreErrors ? EXIT.GIT
: null)` *exits the process with `EXIT.GIT` precisely when the
ignore-errors option is set*, and with the option unset it merely logs and
falls through (here crashing with a `TypeError`, the line having fewer
than three fields) — the opposite of the documented behaviour. -/
theorem c1_ignore_errors_inverted :
    parseLine (jstr "not-a-valid-line") true
        = ParseResult.exited [jstr "Invalid line: not-a-valid-line"] EXIT_GIT
      ∧ parseLine (jstr "not-a-valid-line") false
        = ParseResult.typeError [jstr "Invalid line: not-a-valid-line"] := by
  decide

/-- Claim C2 (counterexample): the subject `feat(api): a: b` has the form
`type(scope): message` with message `a: b`, but the limit-2 split drops
everything after the second colon, so the parsed message is `a`, not the
trimmed `a: b`. -/
theorem c2_counterexample :
    parseLine (jstr "au::@::br::@::feat(api): a: b::@::2 days ago::@::abc1234") false
      = ParseResult.parsed []
          { author := some (jstr "au")
            branches := some (jstr "br")
            message := jstr "a"
            age := some (jstr "2 days ago")
            sha := some (jstr "abc1234")
            type := { title := jstr "feat", subtitle := some (jstr "api") } }
    ∧ jstr "a" ≠ jtrim (jstr "a: b") := by
  decide

/-- Claim C2 (amended): for every well-formed five-field line whose subject
has the form `type(scope): message`, where the type contains no colon and
no opening parenthesis, the scope no colon and no closing parenthesis, and
the message no colon, parsing yields title = type, subtitle = scope, and
the message trimmed of surrounding whitespace. -/
theorem c2_subject_shape (line au br ty sc ms d e : JStr) (ign : Bool)
    (h : jsSplit DELIM line = [au, br, ty ++ jstr "(" ++ sc ++ jstr "): " ++ ms, d, e])
    (ht1 : ':' ∉ ty) (ht2 : '(' ∉ ty) (hs1 : ':' ∉ sc) (hs2 : ')' ∉ sc) (hm : ':' ∉ ms) :
    parseLine line ign
      = ParseResult.parsed []
          { author := some au
            branches := some br
            message := jtrim ms
            age := some d
            sha := some e
            type := { title := ty, subtitle := some sc } } :=
  parseLine_typed line au br ty sc ms d e ign h ht1 ht2 hs1 hs2 hm

/-- Witness for C2 at the spec's own example line. -/
theorem c2_witness :
    parseLine (jstr "Jane Doe::@:: (HEAD -> main)::@::feat(api): add health check::@::2 days ago::@::abc1234") false
      = ParseResult.parsed []
          { author := some (jstr "Jane Doe")
            branches := some (jstr " (HEAD -> main)")
            message := jtrim (jstr "add health check")
            age := some (jstr "2 days ago")
            sha := some (jstr "abc1234")
            type := { title := jstr "feat", subtitle := some (jstr "api") } } :=
  c2_subject_shape
    (jstr "Jane Doe::@:: (HEAD -> main)::@::feat(api): add health check::@::2 days ago::@::abc1234")
    (jstr "Jane Doe") (jstr " (HEAD -> main)") (jstr "feat") (jstr "api")
    (jstr "add health check") (jstr "2 days ago") (jstr "abc1234") false
    (by decide) (by decide) (by decide) (by decide) (by decide) (by decide)

/-- Claim C3 (counterexample): on the valid five-field line with subject
`f: x` the record stores message `x`, and re-joining the record's five
fields with the delimiter does not reproduce the line. -/
theorem c3_counterexample :
    parseLine (jstr "a::@::b::@::f: x::@::d::@::e") false
      = ParseResult.parsed []
          { author := some (jstr "a")
            branches := some (jstr "b")
            message := jstr "x"
            age := some (jstr "d")
            sha := some (jstr "e")
            type := { title := jstr "f", subtitle := none } }
    ∧ jjoin DELIM [jstr "a", jstr "b", jstr "x", jstr "d", jstr "e"]
        ≠ jstr "a::@::b::@::f: x::@::d::@::e" := by
  decide

/-- Claim C3 (amended): for every valid five-field line whose subject
contains no colon, the record keeps the five split fields verbatim
(message = raw subject) and re-joining them with the delimiter reproduces
the input line exactly. -/
theorem c3_roundtrip (line au br subj d e : JStr) (ign : Bool)
    (h : jsSplit DELIM line = [au, br, subj, d, e]) (hnc : ':' ∉ subj) :
    parseLine line ign
      = ParseResult.parsed []
          { author := some au
            branches := some br
            message := subj
            age := some d
            sha := some e
            type := { title := jstr "misc", subtitle := none } }
    ∧ jjoin DELIM [au, br, subj, d, e] = line := by
  refine ⟨parseLine_no_colon line au br subj d e ign h hnc, ?_⟩
  rw [← h]
  exact jjoin_jsSplit DELIM line (by decide)

/-- Witness for C3 on a concrete colon-free line. -/
theorem c3_witness :
    parseLine (jstr "a::@::b::@::update readme::@::2 days ago::@::abc") false
      = ParseResult.parsed []
          { author := some (jstr "a")
            branches := some (jstr "b")
            message := jstr "update readme"
            age := some (jstr "2 days ago")
            sha := some (jstr "abc")
            type := { title := jstr "misc", subtitle := none } }
    ∧ jjoin DELIM [jstr "a", jstr "b", jstr "update readme", jstr "2 days ago", jstr "abc"]
        = jstr "a::@::b::@::update readme::@::2 days ago::@::abc" :=
  c3_roundtrip (jstr "a::@::b::@::update readme::@::2 days ago::@::abc")
    (jstr "a") (jstr "b") (jstr "update readme") (jstr "2 days ago") (jstr "abc") false
    (by decide) (by decide)

/-- Claim C7: for every well-formed five-field line whose subject contains
no colon, parsing yields title `misc`, no subtitle (`null`), and the whole
subject as the message. -/
theorem c7_no_colon_default (line au br subj d e : JStr) (ign : Bool)
    (h : jsSplit DELIM line = [au, br, subj, d, e]) (hnc : ':' ∉ subj) :
    parseLine line ign
      = ParseResult.parsed []
          { author := some au
            branches := some br
            message := subj
            age := some d
            sha := some e
            type := { title := jstr "misc", subtitle := none } } :=
  parseLine_no_colon line au br subj d e ign h hnc

/-- Witness for C7 on a concrete colon-free line. -/
theorem c7_witness :
    parseLine (jstr "jd::@::::@::fix typo in docs::@::3 days ago::@::beef") true
      = ParseResult.parsed []
          { author := some (jstr "jd")
            branches := some []
            message := jstr "fix typo in docs"
            age := some (jstr "3 days ago")
            sha := some (jstr "beef")
            type := { title := jstr "misc", subtitle := none } } :=
  c7_no_colon_default (jstr "jd::@::::@::fix typo in docs::@::3 days ago::@::beef")
    (jstr "jd") [] (jstr "fix typo in docs") (jstr "3 days ago") (jstr "beef") true
    (by decide) (by decide)

/-- Claim C9: with ignore-errors unset, a line with fewer than three
delimiter-separated fields does not exit through the malformed-line branch
and returns no record: `msg` logs the invalid-line message with a `null`
status, execution continues, and reading `parts[2].split` raises an
uncaught `TypeError`. -/
theorem c9_short_line_type_error (line : JStr)
    (h : (jsSplit DELIM line).length < 3) :
    parseLine line false = ParseResult.typeError [invalidLineMsg line] := by
  have hP : PARTS = 5 := by decide
  have hne : (jsSplit DELIM line).length ≠ PARTS := by omega
  unfold parseLine
  rw [if_pos hne]
  simp only [Bool.false_eq_true, if_false]
  unfold parseLineRest
  rw [List.get?_eq_none.mpr (by omega)]

/-- Witness for C9 on a one-field line. -/
theorem c9_witness :
    parseLine (jstr "abc") false = ParseResult.typeError [invalidLineMsg (jstr "abc")] :=
  c9_short_line_type_error (jstr "abc") (by decide)

/-! Claim C8: the commit filter. -/

/-- Claim C8: a line is retained exactly when no exclusion pattern matches
it, and with zero patterns the filter stage is the identity on any list of
lines. -/
theorem c8_filter_none_match (line : JStr) (regexes : List (JStr → Bool))
    (ls : List JStr) :
    (filterLinesByPatterns line regexes = true ↔ ∀ r ∈ regexes, r line = false)
    ∧ ls.filter (fun l => filterLinesByPatterns l []) = ls := by
  constructor
  · induction regexes with
    | nil => simp [filterLinesByPatterns]
    | cons r rest ih =>
      by_cases hr : r line
      · simp [filterLinesByPatterns, hr]
      · simp only [Bool.not_eq_true] at hr
        simp [filterLinesByPatterns, hr, ih]
  · have hid : (fun l => filterLinesByPatterns l []) = fun _ => true := by
      funext l
      rfl
    rw [hid]
    exact List.filter_true ls

/-- Witness for C8 with a concrete pattern list and line list. -/
theorem c8_witness :
    (filterLinesByPatterns (jstr "jenkins build") [fun l => (jstr "jenkins").isPrefixOf l]
        = true ↔ ∀ r ∈ [fun l => (jstr "jenkins").isPrefixOf l], r (jstr "jenkins build") = false)
    ∧ [jstr "keep me"].filter (fun l => filterLinesByPatterns l []) = [jstr "keep me"] :=
  c8_filter_none_match (jstr "jenkins build") [fun l => (jstr "jenkins").isPrefixOf l]
    [jstr "keep me"]

/-! Grouping lemmas (`sortCommitsByType`). -/

theorem groupOf_pushTo_same (s : List (JStr × List Commit)) (l : JStr) (c : Commit) :
    groupOf l (pushTo s l c) = groupOf l s ++ [c] := by
  induction s with
  | nil => simp [pushTo, groupOf]
  | cons p rest ih =>
    obtain ⟨l', g⟩ := p
    by_cases h : l' = l
    · simp [pushTo, groupOf, h]
    · simp [pushTo, groupOf, h, ih]

theorem groupOf_pushTo_other (s : List (JStr × List Commit)) (l l' : JStr) (c : Commit)
    (h : l' ≠ l) :
    groupOf l' (pushTo s l c) = groupOf l' s := by
  have hne : ¬ l = l' := fun hh => h hh.symm
  induction s with
  | nil => simp [pushTo, groupOf, hne]
  | cons p rest ih =>
    obtain ⟨l'', g⟩ := p
    by_cases h2 : l'' = l
    · subst h2
      simp [pushTo, groupOf, hne]
    · rw [show pushTo ((l'', g) :: rest) l c = (l'', g) :: pushTo rest l c from by
        simp [pushTo, h2]]
      simp [groupOf, ih]

/-- Pushing a list of commits one by one onto the group keyed `long`
(the inner `forEach` of `sortCommitsByType`). -/
def addAll (s : List (JStr × List Commit)) (long : JStr) (cs : List Commit) :
    List (JStr × List Commit) :=
  cs.foldl (fun s c => pushTo s long c) s

theorem sortCommitsByType_eq_addAll (types : List (JStr × JStr)) (commits : List Commit) :
    sortCommitsByType types commits
      = types.foldl
          (fun sorted kv => addAll sorted kv.2 (commits.filter (fun c => c.type.title == kv.1)))
          [] := rfl

theorem groupOf_addAll_same (cs : List Commit) :
    ∀ (s : List (JStr × List Commit)) (l : JStr),
      groupOf l (addAll s l cs) = groupOf l s ++ cs := by
  induction cs with
  | nil => intro s l; simp [addAll]
  | cons c rest ih =>
    intro s l
    show groupOf l (addAll (pushTo s l c) l rest) = groupOf l s ++ c :: rest
    rw [ih (pushTo s l c) l, groupOf_pushTo_same]
    simp

theorem groupOf_addAll_other (cs : List Commit) :
    ∀ (s : List (JStr × List Commit)) (l l' : JStr), l' ≠ l →
      groupOf l' (addAll s l cs) = groupOf l' s := by
  induction cs with
  | nil => intro s l l' _; simp [addAll]
  | cons c rest ih =>
    intro s l l' h
    show groupOf l' (addAll (pushTo s l c) l rest) = groupOf l' s
    rw [ih (pushTo s l c) l l' h, groupOf_pushTo_other s l l' c h]

theorem groupOf_fold_not_label (commits : List Commit) :
    ∀ (ts : List (JStr × JStr)) (s : List (JStr × List Commit)) (l : JStr),
      l ∉ ts.map Prod.snd →
      groupOf l (ts.foldl
        (fun sorted kv => addAll sorted kv.2 (commits.filter (fun c => c.type.title == kv.1))) s)
        = groupOf l s := by
  intro ts
  induction ts with
  | nil => intro s l _; rfl
  | cons kv rest ih =>
    intro s l hl
    have h1 : l ≠ kv.2 := by
      intro hEq
      exact hl (by simp [hEq])
    have h2 : l ∉ rest.map Prod.snd := by
      intro hmem
      exact hl (by simp [hmem])
    show groupOf l (rest.foldl _ (addAll s kv.2 _)) = groupOf l s
    rw [ih (addAll s kv.2 (commits.filter (fun c => c.type.title == kv.1))) l h2,
      groupOf_addAll_other _ s kv.2 l h1]

theorem groupOf_sort_aux (commits : List Commit) :
    ∀ (ts : List (JStr × JStr)) (s : List (JStr × List Commit)) (k l : JStr),
      (k, l) ∈ ts → (ts.map Prod.snd).Nodup → groupOf l s = [] →
      groupOf l (ts.foldl
        (fun sorted kv => addAll sorted kv.2 (commits.filter (fun c => c.type.title == kv.1))) s)
        = commits.filter (fun c => c.type.title == k) := by
  intro ts
  induction ts with
  | nil => intro s k l h; cases h
  | cons kv rest ih =>
    intro s k l hmem hnd hempty
    have hnd' := hnd
    rw [List.map_cons] at hnd'
    have hpair := List.nodup_cons.mp hnd'
    have hnd1 : kv.2 ∉ rest.map Prod.snd := hpair.1
    have hnd2 : (rest.map Prod.snd).Nodup := hpair.2
    rcases List.mem_cons.mp hmem with hEq | hrest
    · have hk : kv = (k, l) := hEq.symm
      subst hk
      show groupOf l (rest.foldl _ (addAll s l _)) = _
      rw [groupOf_fold_not_label commits rest _ l hnd1,
        groupOf_addAll_same _ s l, hempty]
      rfl
    · have hne : l ≠ kv.2 := by
        intro hEq
        exact hnd1 (hEq ▸ List.mem_map.mpr ⟨(k, l), hrest, rfl⟩)
      show groupOf l (rest.foldl _ (addAll s kv.2 _)) = _
      exact ih (addAll s kv.2 (commits.filter (fun c => c.type.title == kv.1))) k l hrest hnd2
        (by rw [groupOf_addAll_other _ s kv.2 l hne]; exact hempty)

/-- Invariant: a property holding of all commits already stored and of the
pushed commit is preserved by `pushTo`. -/
theorem groups_prop_pushTo (P : Commit → Prop) (s : List (JStr × List Commit))
    (l : JStr) (c : Commit)
    (hs : ∀ p ∈ s, ∀ x ∈ p.2, P x) (hc : P c) :
    ∀ p ∈ pushTo s l c, ∀ x ∈ p.2, P x := by
  induction s with
  | nil =>
    intro p hp x hx
    simp [pushTo] at hp
    subst hp
    simp at hx
    exact hx ▸ hc
  | cons q rest ih =>
    obtain ⟨l', g⟩ := q
    by_cases h : l' = l
    · intro p hp x hx
      simp only [pushTo, h, if_true] at hp
      rcases List.mem_cons.mp hp with hEq | hmem
      · subst hEq
        rcases List.mem_append.mp hx with h1 | h1
        · exact hs (l', g) (by simp) x h1
        · simp at h1
          exact h1 ▸ hc
      · exact hs p (by simp [hmem]) x hx
    · intro p hp x hx
      simp only [pushTo, h, if_false] at hp
      rcases List.mem_cons.mp hp with hEq | hmem
      · subst hEq
        exact hs (l', g) (by simp) x hx
      · exact ih (fun p hp x hx => hs p (by simp [hp]) x hx) p hmem x hx

theorem groups_prop_addAll (P : Commit → Prop) (cs : List Commit) :
    ∀ (s : List (JStr × List Commit)) (l : JStr),
      (∀ p ∈ s, ∀ x ∈ p.2, P x) → (∀ c ∈ cs, P c) →
      ∀ p ∈ addAll s l cs, ∀ x ∈ p.2, P x := by
  induction cs with
  | nil => intro s l hs _; exact hs
  | cons c rest ih =>
    intro s l hs hcs
    exact ih (pushTo s l c) l
      (groups_prop_pushTo P s l c hs (hcs c (by simp)))
      (fun x hx => hcs x (by simp [hx]))

/-- Every commit stored by `sortCommitsByType` has a title among the
configured keys. -/
theorem sort_mem_title_key (types : List (JStr × JStr)) (commits : List Commit) :
    ∀ p ∈ sortCommitsByType types commits, ∀ x ∈ p.2,
      x.type.title ∈ types.map Prod.fst := by
  rw [sortCommitsByType_eq_addAll]
  suffices H : ∀ (ts : List (JStr × JStr)) (s : List (JStr × List Commit)),
      (∀ kv ∈ ts, kv.1 ∈ types.map Prod.fst) →
      (∀ p ∈ s, ∀ x ∈ p.2, x.type.title ∈ types.map Prod.fst) →
      ∀ p ∈ ts.foldl
        (fun sorted kv => addAll sorted kv.2 (commits.filter (fun c => c.type.title == kv.1))) s,
        ∀ x ∈ p.2, x.type.title ∈ types.map Prod.fst by
    intro p hp
    exact H types [] (fun kv hkv => List.mem_map.mpr ⟨kv, hkv, rfl⟩) (by simp) p hp
  intro ts
  induction ts with
  | nil => intro s _ hs; exact hs
  | cons kv rest ih =>
    intro s hts hs
    exact ih (addAll s kv.2 (commits.filter (fun c => c.type.title == kv.1)))
      (fun q hq => hts q (by simp [hq]))
      (groups_prop_addAll _ _ s kv.2 hs
        (fun c hc => by
          have := List.of_mem_filter hc
          simp only [beq_iff_eq] at this
          rw [this]
          exact hts kv (by simp)))

/-- Every label produced by `sortCommitsByType` is a configured label. -/
theorem sort_labels_configured (types : List (JStr × JStr)) (commits : List Commit) :
    ∀ p ∈ sortCommitsByType types commits, p.1 ∈ types.map Prod.snd := by
  rw [sortCommitsByType_eq_addAll]
  suffices H : ∀ (ts : List (JStr × JStr)) (s : List (JStr × List Commit)),
      (∀ kv ∈ ts, kv.2 ∈ types.map Prod.snd) →
      (∀ p ∈ s, p.1 ∈ types.map Prod.snd) →
      ∀ p ∈ ts.foldl
        (fun sorted kv => addAll sorted kv.2 (commits.filter (fun c => c.type.title == kv.1))) s,
        p.1 ∈ types.map Prod.snd by
    intro p hp
    exact H types [] (fun kv hkv => List.mem_map.mpr ⟨kv, hkv, rfl⟩) (by simp) p hp
  have labels_pushTo : ∀ (Q : JStr → Prop) (s : List (JStr × List Commit)) (l : JStr) (c : Commit),
      (∀ p ∈ s, Q p.1) → Q l → ∀ p ∈ pushTo s l c, Q p.1 := by
    intro Q s l c
    induction s with
    | nil =>
      intro _ hl p hp
      simp [pushTo] at hp
      subst hp
      exact hl
    | cons q rest ih =>
      obtain ⟨l', g⟩ := q
      intro hs hl p hp
      by_cases h : l' = l
      · simp only [pushTo, h, if_true] at hp
        rcases List.mem_cons.mp hp with hEq | hmem
        · subst hEq; exact h ▸ hl
        · exact hs p (by simp [hmem])
      · simp only [pushTo, h, if_false] at hp
        rcases List.mem_cons.mp hp with hEq | hmem
        · subst hEq; exact hs (l', g) (by simp)
        · exact ih (fun q hq => hs q (by simp [hq])) hl p hmem
  have labels_addAll : ∀ (Q : JStr → Prop) (cs : List Commit) (s : List (JStr × List Commit))
      (l : JStr), (∀ p ∈ s, Q p.1) → Q l → ∀ p ∈ addAll s l cs, Q p.1 := by
    intro Q cs
    induction cs with
    | nil => intro s l hs _; exact hs
    | cons c rest ih =>
      intro s l hs hl
      exact ih (pushTo s l c) l (labels_pushTo Q s l c hs hl) hl
  intro ts
  induction ts with
  | nil => intro s _ hs; exact hs
  | cons kv rest ih =>
    intro s hts hs
    exact ih (addAll s kv.2 (commits.filter (fun c => c.type.title == kv.1)))
      (fun q hq => hts q (by simp [hq]))
      (labels_addAll _ _ s kv.2 hs (hts kv (by simp)))

/-- Helper: a commit whose title matches no configured key is a member of
no group. -/
theorem sort_not_mem_of_title_not_key (types : List (JStr × JStr)) (commits : List Commit)
    (c : Commit) (h : c.type.title ∉ types.map Prod.fst) :
    ∀ p ∈ sortCommitsByType types commits, c ∉ p.2 := by
  intro p hp hc
  exact h (sort_mem_title_key types commits p hp c hc)

/-- Default type map of the script (`processArgs`, source lines 346-357),
as an insertion-ordered list of `(key, label)` pairs. -/
def defaultTypes : List (JStr × JStr) :=
  [(jstr "feat", jstr "Features"),
   (jstr "fix", jstr "Fixes"),
   (jstr "perf", jstr "Performance Improvements"),
   (jstr "revert", jstr "Reversions"),
   (jstr "docs", jstr "Documentation"),
   (jstr "style", jstr "Styles"),
   (jstr "refactor", jstr "Refactoring"),
   (jstr "test", jstr "Testing"),
   (jstr "chore", jstr "Chores"),
   (jstr "misc", jstr "Misc.")]

/-- Sample commit with an unconfigured type title. -/
def wipCommit : Commit :=
  { author := some (jstr "a")
    branches := some []
    message := jstr "tidy"
    age := some (jstr "1 day ago")
    sha := some (jstr "fff")
    type := { title := jstr "wip", subtitle := none } }

/-- Sample commit classified `fix`. -/
def fixCommitA : Commit :=
  { author := some (jstr "a")
    branches := some []
    message := jstr "first fix"
    age := some (jstr "1 day ago")
    sha := some (jstr "aaa")
    type := { title := jstr "fix", subtitle := none } }

/-- Sample commit classified `feat`. -/
def featCommit : Commit :=
  { author := some (jstr "b")
    branches := some []
    message := jstr "a feature"
    age := some (jstr "2 days ago")
    sha := some (jstr "bbb")
    type := { title := jstr "feat", subtitle := some (jstr "api") } }

/-- Sample commit classified `fix`, later than `fixCommitA`. -/
def fixCommitB : Commit :=
  { author := some (jstr "c")
    branches := some []
    message := jstr "second fix"
    age := some (jstr "3 days ago")
    sha := some (jstr "ccc")
    type := { title := jstr "fix", subtitle := none } }

/-! Claims C4, C5 and C10: the grouper. -/

/-- Claim C4: a parsed commit whose type title equals no configured key is
placed in no group by `sortCommitsByType` (so the renderer, which walks
only the groups, never emits it), and every label in the grouping output
is a label of the configured type-map. -/
theorem c4_unmatched_commit_dropped (types : List (JStr × JStr)) (commits : List Commit)
    (c : Commit) (h : c.type.title ∉ types.map Prod.fst) :
    (∀ p ∈ sortCommitsByType types commits, p.1 ∈ types.map Prod.snd)
    ∧ (∀ p ∈ sortCommitsByType types commits, c ∉ p.2) :=
  ⟨sort_labels_configured types commits, sort_not_mem_of_title_not_key types commits c h⟩

/-- Witness for C4: a `wip`-titled commit under the default type map. -/
theorem c4_witness :
    (∀ p ∈ sortCommitsByType defaultTypes [fixCommitA, wipCommit], p.1 ∈ defaultTypes.map Prod.snd)
    ∧ (∀ p ∈ sortCommitsByType defaultTypes [fixCommitA, wipCommit], wipCommit ∉ p.2) :=
  c4_unmatched_commit_dropped defaultTypes [fixCommitA, wipCommit] wipCommit (by decide)

/-- Claim C5: grouping is stable.  Provided the configured labels are
pairwise distinct (true of any sensible type-map, in particular the
default one), the commits stored under the label of a configured
`(key, label)` pair are exactly the input commits whose type title equals
the key, in their original relative order — `List.filter` preserves
order, so this is the stability statement. -/
theorem c5_grouping_stable (types : List (JStr × JStr)) (commits : List Commit) (k l : JStr)
    (hnd : (types.map Prod.snd).Nodup) (hmem : (k, l) ∈ types) :
    groupOf l (sortCommitsByType types commits)
      = commits.filter (fun c => c.type.title == k) := by
  rw [sortCommitsByType_eq_addAll]
  exact groupOf_sort_aux commits types [] k l hmem hnd rfl

/-- Witness for C5: the two `fix` commits keep their order under `Fixes`. -/
theorem c5_witness :
    groupOf (jstr "Fixes") (sortCommitsByType defaultTypes [fixCommitA, featCommit, fixCommitB])
      = [fixCommitA, featCommit, fixCommitB].filter (fun c => c.type.title == jstr "fix") :=
  c5_grouping_stable defaultTypes [fixCommitA, featCommit, fixCommitB]
    (jstr "fix") (jstr "Fixes") (by decide) (by decide)

/-- Title produced by the classifying regex: always the verbatim prefix of
its input up to the first `'('`, with no trimming or case folding. -/
theorem matchTypeInfo_title (s : JStr) :
    (matchTypeInfo s).title = s.takeWhile (fun c => c ≠ '(') := by
  unfold matchTypeInfo
  split
  · rfl
  · split <;> rfl

/-- Claim C10: on a well-formed five-field line whose subject contains a
colon, the parsed type title is the verbatim pre-colon text up to the
first `'('` — no whitespace trimming, no case normalisation — and
whenever that title differs from every configured key (for instance
because of surrounding whitespace or letter case) the commit lands in no
group of `sortCommitsByType`. -/
theorem c10_title_verbatim (types : List (JStr × JStr)) (commits : List Commit)
    (line au br subj d e : JStr) (ign : Bool)
    (h : jsSplit DELIM line = [au, br, subj, d, e]) (hc : ':' ∈ subj) :
    ∃ c, parseLine line ign = ParseResult.parsed [] c
      ∧ c.type.title = (subj.takeWhile (fun ch => ch ≠ ':')).takeWhile (fun ch => ch ≠ '(')
      ∧ (c.type.title ∉ types.map Prod.fst →
          ∀ p ∈ sortCommitsByType types commits, c ∉ p.2) := by
  have hcol : jstr ":" = [':'] := by decide
  obtain ⟨r, rs, hsplit⟩ : ∃ r rs, jsSplit (jstr ":") subj
      = subj.takeWhile (fun d => d ≠ ':') :: r :: rs := by
    rw [hcol]
    have h1 := jsSplitC_fst ':' subj
    have h2 := jsSplitC_snd_ne_nil ':' subj hc
    cases h3 : (jsSplitC [':'] subj).2 with
    | nil => exact absurd h3 h2
    | cons r rs =>
      refine ⟨r, rs, ?_⟩
      have hie : ([':'] : List Char).isEmpty = false := rfl
      rw [jsSplit, hie]
      simp only [Bool.false_eq_true, if_false, h1, h3]
  have hrec := parseLineRest_pair au br subj d e
    (subj.takeWhile (fun d => d ≠ ':')) r [] (by rw [hsplit]; rfl)
  refine ⟨{ author := some au
            branches := some br
            message := jtrim r
            age := some d
            sha := some e
            type := matchTypeInfo (subj.takeWhile (fun d => d ≠ ':')) }, ?_, ?_, ?_⟩
  · rw [parseLine_five line au br subj d e ign h, hrec]
  · exact matchTypeInfo_title _
  · intro hnot
    exact sort_not_mem_of_title_not_key types commits _ hnot

/-- Witness for C10: subject `feat (api): x` yields the title `feat `
(trailing space kept), which matches no default key, so the commit is
dropped. -/
theorem c10_witness :
    ∃ c, parseLine (jstr "a::@::b::@::feat (api): x::@::1 day ago::@::abc") false
        = ParseResult.parsed [] c
      ∧ c.type.title = ((jstr "feat (api): x").takeWhile (fun ch => ch ≠ ':')).takeWhile
          (fun ch => ch ≠ '(')
      ∧ (c.type.title ∉ defaultTypes.map Prod.fst →
          ∀ p ∈ sortCommitsByType defaultTypes [fixCommitA], c ∉ p.2) :=
  c10_title_verbatim defaultTypes [fixCommitA]
    (jstr "a::@::b::@::feat (api): x::@::1 day ago::@::abc")
    (jstr "a") (jstr "b") (jstr "feat (api): x") (jstr "1 day ago") (jstr "abc") false
    (by decide) (by decide)

/-! The markdown renderer (source lines 48-72 and 156-212). -/

/-- Embedding of `repeatChar(count, char = '#')` at its default argument. -/
def repeatChar (count : Nat) : JStr := List.replicate count '#'

/-- Match of one line against `/^[ \t]*(?=\S)/`: the length of the leading
blank run when a non-whitespace character follows it, no match otherwise. -/
def lineIndentOpt (l : JStr) : Option Nat :=
  match l.dropWhile jsBlank with
  | [] => none
  | c :: _ => if jsWs c then none else some (l.takeWhile jsBlank).length

/-- Embedding of `stripIndent` (source lines 64-69): collect the indents of
the lines with content, take the minimum (the `reduce` over `Math.min`
starting from `Infinity`), and strip exactly that many leading blanks from
every line that has them (`^[ \t]{ind}` with the `gm` flags). -/
def stripIndent (s : JStr) : JStr :=
  let lines := jsSplit (jstr "\n") s
  match lines.filterMap lineIndentOpt with
  | [] => s
  | m :: ms =>
    let ind := ms.foldl Nat.min m
    jjoin (jstr "\n")
      (lines.map (fun l => if ind ≤ (l.takeWhile jsBlank).length then l.drop ind else l))

/-- Embedding of `getSummarySection(level)`. -/
def getSummarySection (level : Nat) : JStr :=
  stripIndent (jstr "    " ++ repeatChar level
    ++ jstr " Summary\n\n    \x7b\x7bPlease fill in this summary\x7d\x7d\n\n    ")

/-- Character class `[\s-_]` of `capitalizeEachWord`'s regex: whitespace, a
literal hyphen, or an underscore. -/
def jsCapClass (c : Char) : Bool := jsWs c || c = '-' || c = '_'

/-- Left-to-right scan of `/(^\w{1})|([\s-_]{1}\w{1})/g` past position 0:
a two-character match uppercases the word character after a class
character (`toUpperCase` fixes the class character itself), and matches do
not overlap. -/
def capAux : JStr → JStr
  | [] => []
  | [c] => [c]
  | c :: d :: rest =>
    if jsCapClass c && jsWordChar d then c :: d.toUpper :: capAux rest
    else c :: capAux (d :: rest)

/-- Embedding of `capitalizeEachWord(str)`: the empty (falsy) string maps
to `''`; otherwise the scan may also match the very first character via
the `^\w` alternative. -/
def capitalizeEachWord : JStr → JStr
  | [] => []
  | c :: rest => if jsWordChar c then c.toUpper :: capAux rest else capAux (c :: rest)

example : capitalizeEachWord (jstr "hello big-world foo_bar") = jstr "Hello Big-World Foo_Bar" := by
  decide
example : capitalizeEachWord (jstr "_ab") = jstr "_ab" := by decide

/-- Effect of `url.replace(/\.git$/, '')`. -/
def stripGitSuffix (url : JStr) : JStr :=
  if (jstr ".git").isSuffixOf url then url.take (url.length - 4) else url

/-- Embedding of `shaWithUrlMd(url, sha, commitHashLength)`. -/
def shaWithUrlMd (url sha : JStr) (commitHashLength : Nat) : JStr :=
  jstr "[" ++ sha.take commitHashLength ++ jstr "](" ++ stripGitSuffix url
    ++ jstr "/commit/" ++ sha ++ jstr ")"

/-- Rendering options consumed by the markdown renderer. -/
structure Args where
  summaries : Bool
  compactCommits : Bool
  commitHashLength : Nat

/-- One repository's report: remote URL, display name, grouped commits in
insertion order (the object produced by `sortCommitsByType`). -/
structure RepoReport where
  url : JStr
  repo : JStr
  commits : List (JStr × List Commit)

/-- The full document model handed to `reposToMd`. -/
structure ReportBundle where
  docTitle : JStr
  repos : List RepoReport

/-- Template interpolation of a possibly-`undefined` value. -/
def jsTemplate (v : Option JStr) : JStr :=
  match v with
  | some s => s
  | none => jstr "undefined"

/-- JavaScript `x || dflt` on a possibly-undefined string. -/
def jsOrElse (v : Option JStr) (dflt : JStr) : JStr :=
  match v with
  | some s => if s = [] then dflt else s
  | none => dflt

/-- Embedding of `commitToMd(url, commit, args)`.  The result is `none`
when the call crashes: `shaWithUrlMd` reads `sha.substring`, a `TypeError`
when the record's `sha` is `undefined` (never the case for commits parsed
from well-formed lines). -/
def commitToMd (url : JStr) (c : Commit) (args : Args) : Option JStr :=
  match c.sha with
  | none => none
  | some sha =>
    if args.compactCommits then
      let subtitle :=
        match c.type.subtitle with
        | some s => if s = [] then [] else jstr "__" ++ capitalizeEachWord s ++ jstr "__: "
        | none => []
      some ((stripIndent (jstr "      - " ++ subtitle ++ c.message ++ jstr ". "
          ++ jsTemplate c.author ++ jstr ", " ++ jsTemplate c.age
          ++ jstr "\n       (" ++ shaWithUrlMd url sha args.commitHashLength
          ++ jstr ")")).filter (fun ch => ch ≠ '\n' && ch ≠ '\r') ++ jstr "\n")
    else
      some (stripIndent (jstr "      &emsp;__Area__: "
          ++ jsOrElse (c.type.subtitle.map capitalizeEachWord) (jstr "General")
          ++ jstr "</br>\n      &emsp;__Message__: " ++ c.message
          ++ jstr "</br>\n      &emsp;__Branches Affected__: " ++ jsOrElse c.branches (jstr "N/a")
          ++ jstr "</br>\n      &emsp;__Author__: " ++ jsTemplate c.author
          ++ jstr "</br>\n      &emsp;__Committed__: " ++ jsTemplate c.age
          ++ jstr "</br>\n      &emsp;__Commit SHA__: " ++ shaWithUrlMd url sha args.commitHashLength
          ++ jstr "\n      ") ++ jstr "\n")

/-- Inner loop of `repoToMd`: concatenation of the rendered commits of one
group, propagating a crash. -/
def commitsToMd (url : JStr) (cs : List Commit) (args : Args) : Option JStr :=
  match cs with
  | [] => some []
  | c :: rest =>
    match commitToMd url c args, commitsToMd url rest args with
    | some m, some ms => some (m ++ ms)
    | _, _ => none

/-- Outer loop of `repoToMd` over `Object.entries(repo.commits)`: one
`level + 2` heading per group followed by its commits. -/
def groupsToMd (url : JStr) (groups : List (JStr × List Commit)) (args : Args)
    (level : Nat) : Option JStr :=
  match groups with
  | [] => some []
  | (ty, cs) :: rest =>
    match commitsToMd url cs args, groupsToMd url rest args level with
    | some m, some ms =>
      some (stripIndent (jstr "\n      " ++ repeatChar (level + 2) ++ jstr " " ++ ty
        ++ jstr "\n\n      ") ++ m ++ ms)
    | _, _ => none

/-- Embedding of `repoToMd(repo, args, level)`. -/
def repoToMd (repo : RepoReport) (args : Args) (level : Nat) : Option JStr :=
  (groupsToMd repo.url repo.commits args level).map (fun groups =>
    stripIndent (jstr "    " ++ repeatChar level ++ jstr " Project: " ++ repo.repo
        ++ jstr "\n\n    [Link to the repo](" ++ repo.url ++ jstr ")\n\n    ")
      ++ (if args.summaries then getSummarySection (level + 1) else [])
      ++ stripIndent (jstr "    " ++ repeatChar (level + 1) ++ jstr " Commits\n    ")
      ++ groups)

/-- Loop of `reposToMd` over the repositories: `md += repoToMd(...) + '\n'`. -/
def reposLoop (repos : List RepoReport) (args : Args) (level : Nat) : Option JStr :=
  match repos with
  | [] => some []
  | r :: rest =>
    match repoToMd r args level, reposLoop rest args level with
    | some m, some ms => some (m ++ jstr "\n" ++ ms)
    | _, _ => none

/-- Embedding of `reposToMd(reposInfo, args)`: with more than one
repository a level-1 document-title heading (and optional summary) is
emitted first and the repositories render at level 2; otherwise they
render at level 1 and the document title is never used. -/
def reposToMd (reposInfo : ReportBundle) (args : Args) : Option JStr :=
  if reposInfo.repos.length > 1 then
    (reposLoop reposInfo.repos args 2).map (fun body =>
      repeatChar 1 ++ jstr " " ++ reposInfo.docTitle ++ jstr "\n\n"
        ++ (if args.summaries then getSummarySection 2 else []) ++ body)
  else
    reposLoop reposInfo.repos args 1

/-- Heading text of a repository section at level 2. -/
def PROJECT_HEADING : JStr := jstr "## Project: "

/-- Number of lines of a document that are level-2 project headings. -/
def projectHeadingCount (s : JStr) : Nat :=
  ((jsSplit (jstr "\n") s).filter (fun l => PROJECT_HEADING.isPrefixOf l)).length

/-- A string free of line terminators (the model's well-formedness side
condition: embedded `'\n'`/`'\r'` in a data field would change the line
structure the renderer produces). -/
def cleanStr (s : JStr) : Bool := !s.contains '\n' && !s.contains '\r'

/-- Cleanliness of a possibly-absent field. -/
def cleanOpt (v : Option JStr) : Bool :=
  match v with
  | none => true
  | some s => cleanStr s

/-- A commit the renderer can process: present `sha`, fields free of line
terminators. -/
def commitOk (c : Commit) : Bool :=
  c.sha.isSome && cleanOpt c.author && cleanOpt c.branches && cleanStr c.message
    && cleanOpt c.age && cleanOpt c.sha && cleanOpt c.type.subtitle

/-- A repository report the renderer can process. -/
def repoOk (r : RepoReport) : Bool :=
  cleanStr r.repo && cleanStr r.url
    && r.commits.all (fun g => cleanStr g.1 && g.2.all commitOk)

/-- A report bundle the renderer can process. -/
def bundleOk (b : ReportBundle) : Bool :=
  cleanStr b.docTitle && b.repos.all repoOk

-- Sanity check of the renderer against a hand-evaluated run of the script.
set_option maxRecDepth 4000 in
example :
    reposToMd
      { docTitle := jstr "T"
        repos := [{ url := jstr "https://h/r.git", repo := jstr "R"
                    commits := [(jstr "Fixes", [fixCommitA])] }] }
      { summaries := false, compactCommits := true, commitHashLength := 3 }
      = some (jstr "# Project: R\n\n[Link to the repo](https://h/r.git)\n\n## Commits\n\n### Fixes\n\n- first fix. a, 1 day ago ([aaa](https://h/r/commit/aaa))\n\n") := by
  decide

/-! Lemmas for the renderer claims. -/

theorem cleanStr_no_nl {s : JStr} (h : cleanStr s = true) : '\n' ∉ s := by
  simp [cleanStr] at h
  exact h.1

theorem cleanStr_no_cr {s : JStr} (h : cleanStr s = true) : '\r' ∉ s := by
  simp [cleanStr] at h
  exact h.2

theorem jsSplit_nl_cons (a t : JStr) (ha : '\n' ∉ a) :
    jsSplit (jstr "\n") (a ++ '\n' :: t) = a :: jsSplit (jstr "\n") t := by
  have hnl : jstr "\n" = ['\n'] := by decide
  rw [hnl, jsSplit_single_append, jsSplit_single_not_mem ha]
  rfl

theorem jsSplit_nl_head (t : JStr) :
    jsSplit (jstr "\n") ('\n' :: t) = [] :: jsSplit (jstr "\n") t := by
  have := jsSplit_nl_cons [] t (by simp)
  simpa using this

theorem jsSplit_nl_none (a : JStr) (ha : '\n' ∉ a) : jsSplit (jstr "\n") a = [a] := by
  have hnl : jstr "\n" = ['\n'] := by decide
  rw [hnl]
  exact jsSplit_single_not_mem ha

/-- Prefix tests against the project-heading text. -/
theorem php_nil : PROJECT_HEADING.isPrefixOf ([] : JStr) = false := by decide

theorem php_append (x : JStr) : PROJECT_HEADING.isPrefixOf (PROJECT_HEADING ++ x) = true :=
  List.isPrefixOf_iff_prefix.mpr (List.prefix_append _ _)

theorem php_head (c : Char) (rest : JStr) (h : ('#' == c) = false) :
    PROJECT_HEADING.isPrefixOf (c :: rest) = false := by
  rw [show PROJECT_HEADING = '#' :: '#' :: ' ' :: jstr "Project: " from by decide]
  simp [List.isPrefixOf, h]

theorem php_hash_space (rest : JStr) :
    PROJECT_HEADING.isPrefixOf ('#' :: ' ' :: rest) = false := by
  rw [show PROJECT_HEADING = '#' :: '#' :: ' ' :: jstr "Project: " from by decide]
  have h : ('#' == ' ') = false := by decide
  simp [List.isPrefixOf, h]

theorem php_three_hashes (rest : JStr) :
    PROJECT_HEADING.isPrefixOf ('#' :: '#' :: '#' :: rest) = false := by
  rw [show PROJECT_HEADING = '#' :: '#' :: ' ' :: jstr "Project: " from by decide]
  have h : (' ' == '#') = false := by decide
  simp [List.isPrefixOf, h]

theorem php_fourth_char (c : Char) (rest : JStr) (h : ('P' == c) = false) :
    PROJECT_HEADING.isPrefixOf ('#' :: '#' :: ' ' :: c :: rest) = false := by
  rw [show PROJECT_HEADING = '#' :: '#' :: ' ' :: 'P' :: jstr "roject: " from by decide]
  simp [List.isPrefixOf, h]

/-- Chunks of rendered markdown end with a newline (or are empty), which
makes the heading count additive under concatenation. -/
def EndsNlOrEmpty (s : JStr) : Prop := s = [] ∨ ∃ s', s = s' ++ ['\n']

theorem endsNlOrEmpty_nil : EndsNlOrEmpty [] := Or.inl rfl

theorem endsNlOrEmpty_append (a b : JStr) (ha : EndsNlOrEmpty a) (hb : EndsNlOrEmpty b) :
    EndsNlOrEmpty (a ++ b) := by
  rcases hb with rfl | ⟨b', rfl⟩
  · simpa using ha
  · exact Or.inr ⟨a ++ b', by simp⟩

theorem endsNlOrEmpty_lit (s : String) (h : s.toList ≠ [] ∧ s.toList.getLast? = some '\n') :
    EndsNlOrEmpty (jstr s) := by
  refine Or.inr ⟨(jstr s).dropLast, ?_⟩
  have := List.dropLast_append_getLast h.1
  rw [List.getLast?_eq_getLast _ h.1] at h
  have h2 : (jstr s).getLast h.1 = '\n' := by
    injection h.2
  rw [← h2]
  exact (List.dropLast_append_getLast h.1).symm

theorem project_count_nil : projectHeadingCount [] = 0 := by decide

theorem project_count_snocNl (a t : JStr) :
    projectHeadingCount (a ++ '\n' :: t)
      = projectHeadingCount (a ++ ['\n']) + projectHeadingCount t := by
  unfold projectHeadingCount
  have hnl : jstr "\n" = ['\n'] := by decide
  rw [hnl, jsSplit_single_append '\n' a t,
    show a ++ ['\n'] = a ++ '\n' :: ([] : List Char) from rfl,
    jsSplit_single_append '\n' a ([] : List Char)]
  rw [List.filter_append, List.filter_append, List.length_append, List.length_append]
  have hempty : jsSplit ['\n'] ([] : List Char) = [[]] := by decide
  rw [hempty]
  have hz : ((([] : JStr) :: []).filter (fun l => PROJECT_HEADING.isPrefixOf l)).length = 0 := by
    decide
  rw [hz]
  omega

theorem project_count_chunk (a t : JStr) (h : EndsNlOrEmpty a) :
    projectHeadingCount (a ++ t) = projectHeadingCount a + projectHeadingCount t := by
  rcases h with rfl | ⟨a', rfl⟩
  · rw [project_count_nil]
    simp
  · rw [show a' ++ ['\n'] ++ t = a' ++ '\n' :: t from by simp, project_count_snocNl]

theorem project_count_join (ls : List JStr) (h : ∀ l ∈ ls, '\n' ∉ l) (hne : ls ≠ []) :
    projectHeadingCount (jjoin (jstr "\n") ls)
      = (ls.filter (fun l => PROJECT_HEADING.isPrefixOf l)).length := by
  unfold projectHeadingCount
  have hnl : jstr "\n" = ['\n'] := by decide
  rw [hnl, jsSplit_jjoin_single '\n' ls h hne]

theorem jjoin_snoc_nil (sep : JStr) :
    ∀ ls : List JStr, ls ≠ [] → jjoin sep (ls ++ [[]]) = jjoin sep ls ++ sep := by
  intro ls
  induction ls with
  | nil => intro h; exact absurd rfl h
  | cons x rest ih =>
    intro _
    cases rest with
    | nil => simp [jjoin]
    | cons y rest' =>
      have : (x :: y :: rest') ++ [[]] = x :: ((y :: rest') ++ [[]]) := by simp
      rw [this, show jjoin sep (x :: (y :: rest' ++ [[]]))
          = x ++ sep ++ jjoin sep (y :: rest' ++ [[]]) from by
        cases rest' <;> simp [jjoin], ih (by simp)]
      simp [jjoin]

theorem endsNlOrEmpty_join_snoc (ls : List JStr) (hne : ls ≠ []) :
    EndsNlOrEmpty (jjoin (jstr "\n") (ls ++ [[]])) := by
  rw [jjoin_snoc_nil (jstr "\n") ls hne]
  exact Or.inr ⟨jjoin (jstr "\n") ls, by rw [show jstr "\n" = ['\n'] from by decide]⟩

theorem endsNlOrEmpty_join_lastNil (ls : List JStr) (h : ls.getLast? = some ([] : JStr)) :
    EndsNlOrEmpty (jjoin (jstr "\n") ls) := by
  have h1 : ls ≠ [] := by
    intro hh
    rw [hh] at h
    simp at h
  have h2 : ls = ls.dropLast ++ [[]] := by
    have hd := List.dropLast_append_getLast h1
    rw [List.getLast?_eq_getLast _ h1] at h
    injection h with h3
    rw [← h3]
    exact hd.symm
  by_cases h4 : ls.dropLast = []
  · rw [h2, h4]
    exact Or.inl rfl
  · rw [h2]
    exact endsNlOrEmpty_join_snoc _ h4

/-- Indent match on a line of `k` spaces followed by visible content. -/
theorem lineIndentOpt_blanks (k : Nat) (c : Char) (rest : JStr)
    (hcb : jsBlank c = false) (hcw : jsWs c = false) :
    lineIndentOpt (List.replicate k ' ' ++ c :: rest) = some k := by
  unfold lineIndentOpt
  have hall : ∀ x ∈ List.replicate k ' ', jsBlank x = true := by
    intro x hx
    rw [List.eq_of_mem_replicate hx]
    rfl
  rw [dropWhile_append_pos _ _ _ hall, List.dropWhile_cons]
  simp only [hcb, Bool.false_eq_true, if_false]
  rw [takeWhile_append_pos _ _ _ hall, List.takeWhile_cons]
  simp [hcb, hcw]

theorem lineIndentOpt_nil : lineIndentOpt [] = none := rfl

theorem lineIndentOpt_spaces (k : Nat) : lineIndentOpt (List.replicate k ' ') = none := by
  unfold lineIndentOpt
  have hall : ∀ x ∈ List.replicate k ' ', jsBlank x = true := by
    intro x hx
    rw [List.eq_of_mem_replicate hx]
    rfl
  rw [show List.replicate k ' ' = List.replicate k ' ' ++ ([] : JStr) from by simp,
    dropWhile_append_pos _ _ _ hall]
  rfl

/-- Length of the blank prefix of `k` spaces followed by visible content. -/
theorem takeWhile_blanks (k : Nat) (c : Char) (rest : JStr) (hcb : jsBlank c = false) :
    ((List.replicate k ' ' ++ c :: rest).takeWhile jsBlank).length = k := by
  have hall : ∀ x ∈ List.replicate k ' ', jsBlank x = true := by
    intro x hx
    rw [List.eq_of_mem_replicate hx]
    rfl
  rw [takeWhile_append_pos _ _ _ hall, List.takeWhile_cons]
  simp [hcb]

theorem drop_blanks (n k : Nat) (x : JStr) (h : n ≤ k) :
    (List.replicate k ' ' ++ x).drop n = List.replicate (k - n) ' ' ++ x := by
  rw [List.drop_append_eq_append_drop, List.drop_replicate, List.length_replicate,
    Nat.sub_eq_zero_of_le h, List.drop_zero]

/-- Unfolding of `stripIndent` once the line split and the indent list are
known. -/
theorem stripIndent_of_lines (s : JStr) (ls : List JStr) (m : Nat) (ms : List Nat)
    (hsplit : jsSplit (jstr "\n") s = ls)
    (hfm : ls.filterMap lineIndentOpt = m :: ms) :
    stripIndent s = jjoin (jstr "\n") (ls.map (fun l =>
      if ms.foldl Nat.min m ≤ (l.takeWhile jsBlank).length
      then l.drop (ms.foldl Nat.min m) else l)) := by
  unfold stripIndent
  rw [hsplit]
  simp only [hfm]

theorem no_nl_append {a b : JStr} (ha : '\n' ∉ a) (hb : '\n' ∉ b) : '\n' ∉ a ++ b := by
  intro h
  rcases List.mem_append.mp h with h | h
  · exact ha h
  · exact hb h

theorem no_nl_cons {c : Char} {b : JStr} (hc : c ≠ '\n') (hb : '\n' ∉ b) : '\n' ∉ c :: b := by
  intro h
  rcases List.mem_cons.mp h with h | h
  · exact hc h.symm
  · exact hb h

theorem stripIndent_repoHeader (hs2 name url : JStr)
    (hh : '\n' ∉ hs2) (hn : '\n' ∉ name) (hu : '\n' ∉ url) :
    stripIndent (jstr "    " ++ ('#' :: hs2) ++ jstr " Project: " ++ name
        ++ jstr "\n\n    [Link to the repo](" ++ url ++ jstr ")\n\n    ")
      = jjoin (jstr "\n")
          [('#' :: hs2) ++ jstr " Project: " ++ name, [],
           '[' :: (jstr "Link to the repo](" ++ (url ++ [')'])), [], []] := by
  have e1 : jstr "\n\n    [Link to the repo](" = '\n' :: '\n' :: jstr "    [Link to the repo](" := by
    decide
  have e2 : jstr ")\n\n    " = ')' :: '\n' :: '\n' :: jstr "    " := by decide
  have hT : jstr "    " ++ ('#' :: hs2) ++ jstr " Project: " ++ name
        ++ jstr "\n\n    [Link to the repo](" ++ url ++ jstr ")\n\n    "
      = (jstr "    " ++ ('#' :: (hs2 ++ (jstr " Project: " ++ name))))
          ++ '\n' :: ('\n' :: ((jstr "    [Link to the repo](" ++ (url ++ [')']))
          ++ '\n' :: ('\n' :: jstr "    "))) := by
    rw [e1, e2]
    simp
  have hL1nl : '\n' ∉ jstr "    " ++ ('#' :: (hs2 ++ (jstr " Project: " ++ name))) :=
    no_nl_append (by decide)
      (no_nl_cons (by decide) (no_nl_append hh (no_nl_append (by decide) hn)))
  have hL3nl : '\n' ∉ jstr "    [Link to the repo](" ++ (url ++ [')']) :=
    no_nl_append (by decide) (no_nl_append hu (by decide))
  have hlines : jsSplit (jstr "\n")
      (jstr "    " ++ ('#' :: hs2) ++ jstr " Project: " ++ name
        ++ jstr "\n\n    [Link to the repo](" ++ url ++ jstr ")\n\n    ")
      = [jstr "    " ++ ('#' :: (hs2 ++ (jstr " Project: " ++ name))), [],
         jstr "    [Link to the repo](" ++ (url ++ [')']), [], jstr "    "] := by
    rw [hT, jsSplit_nl_cons _ _ hL1nl, jsSplit_nl_head, jsSplit_nl_cons _ _ hL3nl,
      jsSplit_nl_head, jsSplit_nl_none (jstr "    ") (by decide)]
  have hrep4 : jstr "    " = List.replicate 4 ' ' := by decide
  have hi1 : lineIndentOpt (jstr "    " ++ ('#' :: (hs2 ++ (jstr " Project: " ++ name))))
      = some 4 := by
    rw [hrep4]
    exact lineIndentOpt_blanks 4 '#' _ (by decide) (by decide)
  have hi3 : lineIndentOpt (jstr "    [Link to the repo](" ++ (url ++ [')']))
      = some 4 := by
    rw [show jstr "    [Link to the repo](" = List.replicate 4 ' ' ++ '[' :: jstr "Link to the repo](" from by decide,
      List.append_assoc, List.cons_append]
    exact lineIndentOpt_blanks 4 '[' _ (by decide) (by decide)
  have hfm : ([jstr "    " ++ ('#' :: (hs2 ++ (jstr " Project: " ++ name))), [],
      jstr "    [Link to the repo](" ++ (url ++ [')']), [], jstr "    "] : List JStr).filterMap
        lineIndentOpt = [4, 4] := by
    simp [List.filterMap_cons, hi1, hi3, lineIndentOpt_nil,
      show lineIndentOpt (jstr "    ") = none from by decide]
  rw [stripIndent_of_lines _ _ 4 [4] hlines hfm]
  have hmin : List.foldl Nat.min 4 [4] = 4 := rfl
  have hf1 : (if List.foldl Nat.min 4 [4]
        ≤ ((jstr "    " ++ ('#' :: (hs2 ++ (jstr " Project: " ++ name)))).takeWhile jsBlank).length
      then (jstr "    " ++ ('#' :: (hs2 ++ (jstr " Project: " ++ name)))).drop
        (List.foldl Nat.min 4 [4])
      else jstr "    " ++ ('#' :: (hs2 ++ (jstr " Project: " ++ name))))
      = ('#' :: hs2) ++ jstr " Project: " ++ name := by
    rw [hmin, hrep4, takeWhile_blanks 4 '#' _ (by decide), if_pos (le_refl 4),
      drop_blanks 4 4 _ (le_refl 4)]
    simp
  have hf3 : (if List.foldl Nat.min 4 [4]
        ≤ ((jstr "    [Link to the repo](" ++ (url ++ [')'])).takeWhile jsBlank).length
      then (jstr "    [Link to the repo](" ++ (url ++ [')'])).drop (List.foldl Nat.min 4 [4])
      else jstr "    [Link to the repo](" ++ (url ++ [')']))
      = '[' :: (jstr "Link to the repo](" ++ (url ++ [')'])) := by
    rw [hmin,
      show jstr "    [Link to the repo](" = List.replicate 4 ' ' ++ '[' :: jstr "Link to the repo](" from by decide,
      List.append_assoc, List.cons_append,
      takeWhile_blanks 4 '[' _ (by decide), if_pos (le_refl 4),
      drop_blanks 4 4 _ (le_refl 4)]
    simp
  have hf5 : (if List.foldl Nat.min 4 [4] ≤ ((jstr "    ").takeWhile jsBlank).length
      then (jstr "    ").drop (List.foldl Nat.min 4 [4]) else jstr "    ") = ([] : JStr) := by
    decide
  have hfe : (if List.foldl Nat.min 4 [4] ≤ (([] : JStr).takeWhile jsBlank).length
      then ([] : JStr).drop (List.foldl Nat.min 4 [4]) else ([] : JStr)) = ([] : JStr) := by
    decide
  rw [List.map_cons, List.map_cons, List.map_cons, List.map_cons, List.map_cons,
    List.map_nil, hf1, hf3, hf5, hfe]

theorem stripIndent_groupHeading (hs3 ty : JStr) (hh : '\n' ∉ hs3) (ht : '\n' ∉ ty) :
    stripIndent (jstr "\n      " ++ ('#' :: hs3) ++ jstr " " ++ ty ++ jstr "\n\n      ")
      = jjoin (jstr "\n") [[], ('#' :: hs3) ++ jstr " " ++ ty, [], []] := by
  have e1 : jstr "\n      " = '\n' :: jstr "      " := by decide
  have e2 : jstr "\n\n      " = '\n' :: '\n' :: jstr "      " := by decide
  have hT : jstr "\n      " ++ ('#' :: hs3) ++ jstr " " ++ ty ++ jstr "\n\n      "
      = '\n' :: ((jstr "      " ++ ('#' :: (hs3 ++ (jstr " " ++ ty))))
          ++ '\n' :: ('\n' :: jstr "      ")) := by
    rw [e1, e2]
    simp
  have hL2nl : '\n' ∉ jstr "      " ++ ('#' :: (hs3 ++ (jstr " " ++ ty))) :=
    no_nl_append (by decide)
      (no_nl_cons (by decide) (no_nl_append hh (no_nl_append (by decide) ht)))
  have hlines : jsSplit (jstr "\n")
      (jstr "\n      " ++ ('#' :: hs3) ++ jstr " " ++ ty ++ jstr "\n\n      ")
      = [[], jstr "      " ++ ('#' :: (hs3 ++ (jstr " " ++ ty))), [], jstr "      "] := by
    rw [hT, jsSplit_nl_head, jsSplit_nl_cons _ _ hL2nl, jsSplit_nl_head,
      jsSplit_nl_none (jstr "      ") (by decide)]
  have hrep6 : jstr "      " = List.replicate 6 ' ' := by decide
  have hi2 : lineIndentOpt (jstr "      " ++ ('#' :: (hs3 ++ (jstr " " ++ ty))))
      = some 6 := by
    rw [hrep6]
    exact lineIndentOpt_blanks 6 '#' _ (by decide) (by decide)
  have hfm2 : ([([] : JStr), jstr "      " ++ ('#' :: (hs3 ++ (jstr " " ++ ty))), [],
      jstr "      "]).filterMap lineIndentOpt = [6] := by
    simp [List.filterMap_cons, hi2, lineIndentOpt_nil,
      show lineIndentOpt (jstr "      ") = none from by decide]
  rw [stripIndent_of_lines _ _ 6 [] hlines hfm2]
  have hmin : List.foldl Nat.min 6 ([] : List Nat) = 6 := rfl
  have hf2 : (if List.foldl Nat.min 6 ([] : List Nat)
        ≤ ((jstr "      " ++ ('#' :: (hs3 ++ (jstr " " ++ ty)))).takeWhile jsBlank).length
      then (jstr "      " ++ ('#' :: (hs3 ++ (jstr " " ++ ty)))).drop
        (List.foldl Nat.min 6 ([] : List Nat))
      else jstr "      " ++ ('#' :: (hs3 ++ (jstr " " ++ ty))))
      = ('#' :: hs3) ++ jstr " " ++ ty := by
    rw [hmin, hrep6, takeWhile_blanks 6 '#' _ (by decide), if_pos (le_refl 6),
      drop_blanks 6 6 _ (le_refl 6)]
    simp
  have hf4 : (if List.foldl Nat.min 6 ([] : List Nat)
        ≤ ((jstr "      ").takeWhile jsBlank).length
      then (jstr "      ").drop (List.foldl Nat.min 6 ([] : List Nat))
      else jstr "      ") = ([] : JStr) := by decide
  have hfe : (if List.foldl Nat.min 6 ([] : List Nat) ≤ (([] : JStr).takeWhile jsBlank).length
      then ([] : JStr).drop (List.foldl Nat.min 6 ([] : List Nat)) else ([] : JStr))
      = ([] : JStr) := by decide
  rw [List.map_cons, List.map_cons, List.map_cons, List.map_cons, List.map_nil,
    hf2, hf4, hfe]

theorem stripIndent_compact (body link : JStr) (hb : '\n' ∉ body) (hl : '\n' ∉ link) :
    stripIndent ((jstr "      - " ++ body) ++ '\n' :: (jstr "       (" ++ (link ++ [')'])))
      = jjoin (jstr "\n") ['-' :: ' ' :: body, ' ' :: '(' :: (link ++ [')'])] := by
  have hL1nl : '\n' ∉ jstr "      - " ++ body := no_nl_append (by decide) hb
  have hL2nl : '\n' ∉ jstr "       (" ++ (link ++ [')']) :=
    no_nl_append (by decide) (no_nl_append hl (by decide))
  have hlines : jsSplit (jstr "\n")
      ((jstr "      - " ++ body) ++ '\n' :: (jstr "       (" ++ (link ++ [')'])))
      = [jstr "      - " ++ body, jstr "       (" ++ (link ++ [')'])] := by
    rw [jsSplit_nl_cons _ _ hL1nl, jsSplit_nl_none _ hL2nl]
  have hd1 : jstr "      - " ++ body = List.replicate 6 ' ' ++ '-' :: (' ' :: body) := by
    rw [show jstr "      - " = List.replicate 6 ' ' ++ '-' :: [' '] from by decide]
    simp
  have hd2 : jstr "       (" ++ (link ++ [')'])
      = List.replicate 7 ' ' ++ '(' :: (link ++ [')']) := by
    rw [show jstr "       (" = List.replicate 7 ' ' ++ ['('] from by decide]
    simp
  have hi1 : lineIndentOpt (jstr "      - " ++ body) = some 6 := by
    rw [hd1]
    exact lineIndentOpt_blanks 6 '-' _ (by decide) (by decide)
  have hi2 : lineIndentOpt (jstr "       (" ++ (link ++ [')'])) = some 7 := by
    rw [hd2]
    exact lineIndentOpt_blanks 7 '(' _ (by decide) (by decide)
  have hfm : ([jstr "      - " ++ body, jstr "       (" ++ (link ++ [')'])]).filterMap
      lineIndentOpt = [6, 7] := by
    simp [List.filterMap_cons, hi1, hi2]
  rw [stripIndent_of_lines _ _ 6 [7] hlines hfm]
  have hmin : List.foldl Nat.min 6 [7] = 6 := rfl
  have hf1 : (if List.foldl Nat.min 6 [7] ≤ ((jstr "      - " ++ body).takeWhile jsBlank).length
      then (jstr "      - " ++ body).drop (List.foldl Nat.min 6 [7])
      else jstr "      - " ++ body) = '-' :: ' ' :: body := by
    rw [hmin, hd1, takeWhile_blanks 6 '-' _ (by decide), if_pos (le_refl 6),
      drop_blanks 6 6 _ (le_refl 6)]
    simp
  have hf2 : (if List.foldl Nat.min 6 [7]
        ≤ ((jstr "       (" ++ (link ++ [')'])).takeWhile jsBlank).length
      then (jstr "       (" ++ (link ++ [')'])).drop (List.foldl Nat.min 6 [7])
      else jstr "       (" ++ (link ++ [')'])) = ' ' :: '(' :: (link ++ [')']) := by
    rw [hmin, hd2, takeWhile_blanks 7 '(' _ (by decide), if_pos (by omega),
      drop_blanks 6 7 _ (by omega)]
    rfl
  rw [List.map_cons, List.map_cons, List.map_nil, hf1, hf2]

theorem stripIndent_long (fa fb fc fd fe ff : JStr)
    (ha : '\n' ∉ fa) (hb : '\n' ∉ fb) (hc : '\n' ∉ fc) (hd : '\n' ∉ fd)
    (he : '\n' ∉ fe) (hf : '\n' ∉ ff) :
    stripIndent ((jstr "      &emsp;__Area__: " ++ (fa ++ jstr "</br>")) ++ '\n' ::
        ((jstr "      &emsp;__Message__: " ++ (fb ++ jstr "</br>")) ++ '\n' ::
        ((jstr "      &emsp;__Branches Affected__: " ++ (fc ++ jstr "</br>")) ++ '\n' ::
        ((jstr "      &emsp;__Author__: " ++ (fd ++ jstr "</br>")) ++ '\n' ::
        ((jstr "      &emsp;__Committed__: " ++ (fe ++ jstr "</br>")) ++ '\n' ::
        ((jstr "      &emsp;__Commit SHA__: " ++ ff) ++ '\n' :: jstr "      "))))))
      = jjoin (jstr "\n")
          ['&' :: (jstr "emsp;__Area__: " ++ (fa ++ jstr "</br>")),
           '&' :: (jstr "emsp;__Message__: " ++ (fb ++ jstr "</br>")),
           '&' :: (jstr "emsp;__Branches Affected__: " ++ (fc ++ jstr "</br>")),
           '&' :: (jstr "emsp;__Author__: " ++ (fd ++ jstr "</br>")),
           '&' :: (jstr "emsp;__Committed__: " ++ (fe ++ jstr "</br>")),
           '&' :: (jstr "emsp;__Commit SHA__: " ++ ff), []] := by
  have n1 : '\n' ∉ jstr "      &emsp;__Area__: " ++ (fa ++ jstr "</br>") :=
    no_nl_append (by decide) (no_nl_append ha (by decide))
  have n2 : '\n' ∉ jstr "      &emsp;__Message__: " ++ (fb ++ jstr "</br>") :=
    no_nl_append (by decide) (no_nl_append hb (by decide))
  have n3 : '\n' ∉ jstr "      &emsp;__Branches Affected__: " ++ (fc ++ jstr "</br>") :=
    no_nl_append (by decide) (no_nl_append hc (by decide))
  have n4 : '\n' ∉ jstr "      &emsp;__Author__: " ++ (fd ++ jstr "</br>") :=
    no_nl_append (by decide) (no_nl_append hd (by decide))
  have n5 : '\n' ∉ jstr "      &emsp;__Committed__: " ++ (fe ++ jstr "</br>") :=
    no_nl_append (by decide) (no_nl_append he (by decide))
  have n6 : '\n' ∉ jstr "      &emsp;__Commit SHA__: " ++ ff :=
    no_nl_append (by decide) hf
  have hlines : jsSplit (jstr "\n")
      ((jstr "      &emsp;__Area__: " ++ (fa ++ jstr "</br>")) ++ '\n' ::
        ((jstr "      &emsp;__Message__: " ++ (fb ++ jstr "</br>")) ++ '\n' ::
        ((jstr "      &emsp;__Branches Affected__: " ++ (fc ++ jstr "</br>")) ++ '\n' ::
        ((jstr "      &emsp;__Author__: " ++ (fd ++ jstr "</br>")) ++ '\n' ::
        ((jstr "      &emsp;__Committed__: " ++ (fe ++ jstr "</br>")) ++ '\n' ::
        ((jstr "      &emsp;__Commit SHA__: " ++ ff) ++ '\n' :: jstr "      "))))))
      = [jstr "      &emsp;__Area__: " ++ (fa ++ jstr "</br>"),
         jstr "      &emsp;__Message__: " ++ (fb ++ jstr "</br>"),
         jstr "      &emsp;__Branches Affected__: " ++ (fc ++ jstr "</br>"),
         jstr "      &emsp;__Author__: " ++ (fd ++ jstr "</br>"),
         jstr "      &emsp;__Committed__: " ++ (fe ++ jstr "</br>"),
         jstr "      &emsp;__Commit SHA__: " ++ ff, jstr "      "] := by
    rw [jsSplit_nl_cons _ _ n1, jsSplit_nl_cons _ _ n2, jsSplit_nl_cons _ _ n3,
      jsSplit_nl_cons _ _ n4, jsSplit_nl_cons _ _ n5, jsSplit_nl_cons _ _ n6,
      jsSplit_nl_none (jstr "      ") (by decide)]
  have hi : ∀ (pre : JStr) (x : JStr), pre = List.replicate 6 ' ' ++ '&' :: x →
      ∀ y, lineIndentOpt (pre ++ y) = some 6 := by
    intro pre x hpre y
    rw [hpre, List.append_assoc, List.cons_append]
    exact lineIndentOpt_blanks 6 '&' _ (by decide) (by decide)
  have hi1 := hi _ _ (show jstr "      &emsp;__Area__: "
    = List.replicate 6 ' ' ++ '&' :: jstr "emsp;__Area__: " from by decide)
  have hi2 := hi _ _ (show jstr "      &emsp;__Message__: "
    = List.replicate 6 ' ' ++ '&' :: jstr "emsp;__Message__: " from by decide)
  have hi3 := hi _ _ (show jstr "      &emsp;__Branches Affected__: "
    = List.replicate 6 ' ' ++ '&' :: jstr "emsp;__Branches Affected__: " from by decide)
  have hi4 := hi _ _ (show jstr "      &emsp;__Author__: "
    = List.replicate 6 ' ' ++ '&' :: jstr "emsp;__Author__: " from by decide)
  have hi5 := hi _ _ (show jstr "      &emsp;__Committed__: "
    = List.replicate 6 ' ' ++ '&' :: jstr "emsp;__Committed__: " from by decide)
  have hi6 := hi _ _ (show jstr "      &emsp;__Commit SHA__: "
    = List.replicate 6 ' ' ++ '&' :: jstr "emsp;__Commit SHA__: " from by decide)
  have hfm : ([jstr "      &emsp;__Area__: " ++ (fa ++ jstr "</br>"),
      jstr "      &emsp;__Message__: " ++ (fb ++ jstr "</br>"),
      jstr "      &emsp;__Branches Affected__: " ++ (fc ++ jstr "</br>"),
      jstr "      &emsp;__Author__: " ++ (fd ++ jstr "</br>"),
      jstr "      &emsp;__Committed__: " ++ (fe ++ jstr "</br>"),
      jstr "      &emsp;__Commit SHA__: " ++ ff, jstr "      "]).filterMap lineIndentOpt
      = [6, 6, 6, 6, 6, 6] := by
    simp [List.filterMap_cons, hi1, hi2, hi3, hi4, hi5, hi6,
      show lineIndentOpt (jstr "      ") = none from by decide]
  rw [stripIndent_of_lines _ _ 6 [6, 6, 6, 6, 6] hlines hfm]
  have hmin : List.foldl Nat.min 6 [6, 6, 6, 6, 6] = 6 := rfl
  have hfgen : ∀ (pre : JStr) (x : JStr), pre = List.replicate 6 ' ' ++ '&' :: x →
      ∀ y, (if List.foldl Nat.min 6 [6, 6, 6, 6, 6] ≤ ((pre ++ y).takeWhile jsBlank).length
        then (pre ++ y).drop (List.foldl Nat.min 6 [6, 6, 6, 6, 6]) else pre ++ y)
        = '&' :: (x ++ y) := by
    intro pre x hpre y
    rw [hmin, hpre, List.append_assoc, List.cons_append,
      takeWhile_blanks 6 '&' _ (by decide), if_pos (le_refl 6),
      drop_blanks 6 6 _ (le_refl 6)]
    simp
  have hf1 := hfgen _ _ (show jstr "      &emsp;__Area__: "
    = List.replicate 6 ' ' ++ '&' :: jstr "emsp;__Area__: " from by decide)
  have hf2 := hfgen _ _ (show jstr "      &emsp;__Message__: "
    = List.replicate 6 ' ' ++ '&' :: jstr "emsp;__Message__: " from by decide)
  have hf3 := hfgen _ _ (show jstr "      &emsp;__Branches Affected__: "
    = List.replicate 6 ' ' ++ '&' :: jstr "emsp;__Branches Affected__: " from by decide)
  have hf4 := hfgen _ _ (show jstr "      &emsp;__Author__: "
    = List.replicate 6 ' ' ++ '&' :: jstr "emsp;__Author__: " from by decide)
  have hf5 := hfgen _ _ (show jstr "      &emsp;__Committed__: "
    = List.replicate 6 ' ' ++ '&' :: jstr "emsp;__Committed__: " from by decide)
  have hf6 := hfgen _ _ (show jstr "      &emsp;__Commit SHA__: "
    = List.replicate 6 ' ' ++ '&' :: jstr "emsp;__Commit SHA__: " from by decide)
  have hf7 : (if List.foldl Nat.min 6 [6, 6, 6, 6, 6]
      ≤ ((jstr "      ").takeWhile jsBlank).length
      then (jstr "      ").drop (List.foldl Nat.min 6 [6, 6, 6, 6, 6])
      else jstr "      ") = ([] : JStr) := by decide
  rw [List.map_cons, List.map_cons, List.map_cons, List.map_cons, List.map_cons,
    List.map_cons, List.map_cons, List.map_nil, hf1, hf2, hf3, hf4, hf5, hf6, hf7]

theorem char_toNat_ofNat (n : Nat) (h1 : 65 ≤ n) (h2 : n ≤ 90) : (Char.ofNat n).toNat = n := by
  unfold Char.ofNat Char.toNat
  rw [dif_pos (Or.inl (by omega) : n.isValidChar)]
  unfold Char.ofNatAux
  simp [UInt32.toNat, BitVec.toNat_ofNatLt]

theorem toUpper_ne_nl (d : Char) (hd : d ≠ '\n') : d.toUpper ≠ '\n' := by
  show (let n := d.toNat; if n ≥ 97 ∧ n ≤ 122 then Char.ofNat (n - 32) else d) ≠ '\n'
  by_cases hc : d.toNat ≥ 97 ∧ d.toNat ≤ 122
  · show (if d.toNat ≥ 97 ∧ d.toNat ≤ 122 then Char.ofNat (d.toNat - 32) else d) ≠ '\n'
    rw [if_pos hc]
    intro hEq
    have h10 : (Char.ofNat (d.toNat - 32)).toNat = 10 := by rw [hEq]; rfl
    rw [char_toNat_ofNat (d.toNat - 32) (by omega) (by omega)] at h10
    omega
  · show (if d.toNat ≥ 97 ∧ d.toNat ≤ 122 then Char.ofNat (d.toNat - 32) else d) ≠ '\n'
    rw [if_neg hc]
    exact hd

theorem capAux_no_nl : ∀ (n : Nat) (s : JStr), s.length ≤ n → '\n' ∉ s → '\n' ∉ capAux s := by
  intro n
  induction n with
  | zero =>
    intro s hs h
    match s with
    | [] => simp [capAux]
    | c :: rest => simp at hs
  | succ n ih =>
    intro s hs h
    match s with
    | [] => simp [capAux]
    | [c] => simpa [capAux] using h
    | c :: d :: rest =>
      have hcd : c ≠ '\n' := fun hh => h (by simp [hh])
      have hdd : d ≠ '\n' := fun hh => h (by simp [hh])
      have hrest : '\n' ∉ rest := fun hh => h (by simp [hh])
      simp only [capAux]
      by_cases hcls : jsCapClass c && jsWordChar d
      · simp only [hcls, if_true]
        exact no_nl_cons hcd
          (no_nl_cons (toUpper_ne_nl d hdd)
            (ih rest (by simp at hs; omega) hrest))
      · simp only [hcls, Bool.false_eq_true, if_false]
        exact no_nl_cons hcd
          (ih (d :: rest) (by simp at hs ⊢; omega)
            (no_nl_cons hdd hrest))

theorem cap_no_nl {s : JStr} (h : '\n' ∉ s) : '\n' ∉ capitalizeEachWord s := by
  match s with
  | [] => simp [capitalizeEachWord]
  | c :: rest =>
    have hcd : c ≠ '\n' := fun hh => h (by simp [hh])
    have hrest : '\n' ∉ rest := fun hh => h (by simp [hh])
    simp only [capitalizeEachWord]
    by_cases hw : jsWordChar c
    · simp only [hw, if_true]
      exact no_nl_cons (toUpper_ne_nl c hcd)
        (capAux_no_nl rest.length rest (le_refl _) hrest)
    · simp only [hw, Bool.false_eq_true, if_false]
      exact capAux_no_nl (c :: rest).length (c :: rest) (le_refl _)
        (no_nl_cons hcd hrest)

theorem take_no_nl {s : JStr} (n : Nat) (h : '\n' ∉ s) : '\n' ∉ s.take n :=
  fun hm => h (List.take_subset n s hm)

theorem shaWithUrlMd_no_nl {url sha : JStr} (n : Nat)
    (hu : '\n' ∉ url) (hs : '\n' ∉ sha) : '\n' ∉ shaWithUrlMd url sha n := by
  unfold shaWithUrlMd stripGitSuffix
  have hstrip : '\n' ∉ (if (jstr ".git").isSuffixOf url then url.take (url.length - 4) else url) := by
    by_cases h : (jstr ".git").isSuffixOf url
    · rw [if_pos h]; exact take_no_nl _ hu
    · rw [if_neg h]; exact hu
  intro hm
  simp only [List.mem_append] at hm
  rcases hm with ((((((h | h) | h) | h) | h) | h) | h) <;>
    first
      | exact (by decide : '\n' ∉ jstr "[") h
      | exact take_no_nl _ hs h
      | exact (by decide : '\n' ∉ jstr "](") h
      | exact hstrip h
      | exact (by decide : '\n' ∉ jstr "/commit/") h
      | exact hs h
      | exact (by decide : '\n' ∉ jstr ")") h

theorem jsTemplate_no_nl {v : Option JStr} (h : cleanOpt v = true) : '\n' ∉ jsTemplate v := by
  match v with
  | none => exact (by decide : '\n' ∉ jstr "undefined")
  | some s => exact cleanStr_no_nl (by simpa [cleanOpt] using h)

theorem jsOrElse_no_nl {v : Option JStr} {dflt : JStr} (h : cleanOpt v = true)
    (hd : '\n' ∉ dflt) : '\n' ∉ jsOrElse v dflt := by
  match v with
  | none => exact hd
  | some s =>
    have hs : '\n' ∉ s := cleanStr_no_nl (by simpa [cleanOpt] using h)
    simp only [jsOrElse]
    by_cases he : s = []
    · rw [if_pos he]; exact hd
    · rw [if_neg he]; exact hs

theorem endsNl_snoc (x : JStr) : EndsNlOrEmpty (x ++ jstr "\n") :=
  Or.inr ⟨x, by rw [show jstr "\n" = ['\n'] from by decide]⟩

theorem count_single_line (A : JStr) (hA : '\n' ∉ A)
    (hhead : PROJECT_HEADING.isPrefixOf A = false) :
    projectHeadingCount (A ++ jstr "\n") = 0 := by
  have h1 : jsSplit (jstr "\n") (A ++ jstr "\n") = [A, []] := by
    nth_rewrite 2 [show (jstr "\n" : JStr) = '\n' :: [] from by decide]
    rw [jsSplit_nl_cons A [] hA]
    rfl
  unfold projectHeadingCount
  rw [h1]
  simp [List.filter_cons, hhead, php_nil]

theorem filter_no_nl (x : JStr) :
    '\n' ∉ x.filter (fun ch => ch ≠ '\n' && ch ≠ '\r') := by
  intro hm
  have := List.of_mem_filter hm
  simp at this

theorem commitToMd_compact (url : JStr) (c : Commit) (sha : JStr) (args : Args)
    (hsha : c.sha = some sha) (hcmp : args.compactCommits = true) :
    commitToMd url c args = some ((stripIndent (jstr "      - "
      ++ (match c.type.subtitle with
          | some s => if s = [] then [] else jstr "__" ++ capitalizeEachWord s ++ jstr "__: "
          | none => []) ++ c.message ++ jstr ". " ++ jsTemplate c.author ++ jstr ", "
      ++ jsTemplate c.age ++ jstr "\n       (" ++ shaWithUrlMd url sha args.commitHashLength
      ++ jstr ")")).filter (fun ch => ch ≠ '\n' && ch ≠ '\r') ++ jstr "\n") := by
  unfold commitToMd
  rw [hsha]
  simp only [hcmp, if_true]

theorem commitToMd_long (url : JStr) (c : Commit) (sha : JStr) (args : Args)
    (hsha : c.sha = some sha) (hcmp : args.compactCommits = false) :
    commitToMd url c args = some (stripIndent (jstr "      &emsp;__Area__: "
      ++ jsOrElse (c.type.subtitle.map capitalizeEachWord) (jstr "General")
      ++ jstr "</br>\n      &emsp;__Message__: " ++ c.message
      ++ jstr "</br>\n      &emsp;__Branches Affected__: " ++ jsOrElse c.branches (jstr "N/a")
      ++ jstr "</br>\n      &emsp;__Author__: " ++ jsTemplate c.author
      ++ jstr "</br>\n      &emsp;__Committed__: " ++ jsTemplate c.age
      ++ jstr "</br>\n      &emsp;__Commit SHA__: " ++ shaWithUrlMd url sha args.commitHashLength
      ++ jstr "\n      ") ++ jstr "\n") := by
  unfold commitToMd
  rw [hsha]
  simp only [hcmp, Bool.false_eq_true, if_false]

theorem commitToMd_spec (url : JStr) (c : Commit) (args : Args)
    (hu : cleanStr url = true) (hc : commitOk c = true) :
    ∃ m, commitToMd url c args = some m ∧ EndsNlOrEmpty m
      ∧ projectHeadingCount m = 0 := by
  simp only [commitOk, Bool.and_eq_true] at hc
  obtain ⟨⟨⟨⟨⟨⟨hsha, hauth⟩, hbr⟩, hmsg⟩, hage⟩, hshac⟩, hsub⟩ := hc
  obtain ⟨sha, hshaEq⟩ : ∃ sha, c.sha = some sha := by
    cases hx : c.sha
    · rw [hx] at hsha; simp at hsha
    · exact ⟨_, rfl⟩
  have hshaNl : '\n' ∉ sha := by
    rw [hshaEq] at hshac
    exact cleanStr_no_nl (by simpa [cleanOpt] using hshac)
  have hurlNl : '\n' ∉ url := cleanStr_no_nl hu
  have hmsgNl : '\n' ∉ c.message := cleanStr_no_nl hmsg
  have hauthNl : '\n' ∉ jsTemplate c.author := jsTemplate_no_nl hauth
  have hageNl : '\n' ∉ jsTemplate c.age := jsTemplate_no_nl hage
  have hlinkNl : '\n' ∉ shaWithUrlMd url sha args.commitHashLength :=
    shaWithUrlMd_no_nl _ hurlNl hshaNl
  have hsubCases : c.type.subtitle = none ∨ ∃ s, c.type.subtitle = some s := by
    cases c.type.subtitle
    · exact Or.inl rfl
    · exact Or.inr ⟨_, rfl⟩
  have hSPnl : '\n' ∉ (match c.type.subtitle with
      | some s => if s = [] then [] else jstr "__" ++ capitalizeEachWord s ++ jstr "__: "
      | none => ([] : JStr)) := by
    rcases hsubCases with hsubEq | ⟨s, hsubEq⟩
    · rw [hsubEq]
      simp
    · rw [hsubEq]
      have hsNl : '\n' ∉ s := by
        rw [hsubEq] at hsub
        exact cleanStr_no_nl (by simpa [cleanOpt] using hsub)
      show '\n' ∉ if s = [] then [] else jstr "__" ++ capitalizeEachWord s ++ jstr "__: "
      by_cases he : s = []
      · rw [if_pos he]
        simp
      · rw [if_neg he]
        refine no_nl_append (no_nl_append ?_ (cap_no_nl hsNl)) ?_
        · decide
        · decide
  by_cases hcmp : args.compactCommits
  · refine ⟨_, commitToMd_compact url c sha args hshaEq hcmp, endsNl_snoc _, ?_⟩
    have hshape : jstr "      - "
        ++ (match c.type.subtitle with
            | some s => if s = [] then [] else jstr "__" ++ capitalizeEachWord s ++ jstr "__: "
            | none => []) ++ c.message ++ jstr ". " ++ jsTemplate c.author ++ jstr ", "
        ++ jsTemplate c.age ++ jstr "\n       (" ++ shaWithUrlMd url sha args.commitHashLength
        ++ jstr ")"
        = (jstr "      - " ++ ((match c.type.subtitle with
            | some s => if s = [] then [] else jstr "__" ++ capitalizeEachWord s ++ jstr "__: "
            | none => []) ++ (c.message ++ (jstr ". " ++ (jsTemplate c.author ++ (jstr ", "
              ++ jsTemplate c.age))))))
          ++ '\n' :: (jstr "       ("
            ++ (shaWithUrlMd url sha args.commitHashLength ++ [')'])) := by
      rw [show jstr "\n       (" = '\n' :: jstr "       (" from by decide,
        show (jstr ")" : JStr) = [')'] from by decide]
      simp
    have hbodyNl : '\n' ∉ (match c.type.subtitle with
        | some s => if s = [] then [] else jstr "__" ++ capitalizeEachWord s ++ jstr "__: "
        | none => ([] : JStr)) ++ (c.message ++ (jstr ". " ++ (jsTemplate c.author
          ++ (jstr ", " ++ jsTemplate c.age)))) :=
      no_nl_append hSPnl (no_nl_append hmsgNl (no_nl_append (by decide)
        (no_nl_append hauthNl (no_nl_append (by decide) hageNl))))
    rw [hshape, stripIndent_compact _ _ hbodyNl hlinkNl]
    rw [show jjoin (jstr "\n")
        ['-' :: ' ' :: ((match c.type.subtitle with
            | some s => if s = [] then [] else jstr "__" ++ capitalizeEachWord s ++ jstr "__: "
            | none => []) ++ (c.message ++ (jstr ". " ++ (jsTemplate c.author ++ (jstr ", "
              ++ jsTemplate c.age))))),
         ' ' :: '(' :: (shaWithUrlMd url sha args.commitHashLength ++ [')'])]
        = ('-' :: ' ' :: ((match c.type.subtitle with
            | some s => if s = [] then [] else jstr "__" ++ capitalizeEachWord s ++ jstr "__: "
            | none => []) ++ (c.message ++ (jstr ". " ++ (jsTemplate c.author ++ (jstr ", "
              ++ jsTemplate c.age))))))
          ++ jstr "\n"
          ++ (' ' :: '(' :: (shaWithUrlMd url sha args.commitHashLength ++ [')']))
      from by simp [jjoin]]
    rw [List.filter_append, List.filter_append]
    rw [show (jstr "\n").filter (fun ch => ch ≠ '\n' && ch ≠ '\r') = [] from by decide]
    rw [List.filter_cons, List.filter_cons]
    simp only [show ((('-' : Char) ≠ '\n') && (('-' : Char) ≠ '\r')) = true from by decide,
      show (((' ' : Char) ≠ '\n') && ((' ' : Char) ≠ '\r')) = true from by decide, if_true]
    rw [List.append_nil, show ∀ (x y : JStr), ('-' :: ' ' :: x) ++ y = '-' :: (' ' :: x ++ y)
      from fun x y => rfl]
    exact count_single_line _
      (no_nl_cons (by decide)
        (no_nl_append (no_nl_cons (by decide) (filter_no_nl _)) (filter_no_nl _)))
      (php_head '-' _ (by decide))
  · have hcmp' : args.compactCommits = false := by
      cases h : args.compactCommits
      · rfl
      · exact absurd h hcmp
    refine ⟨_, commitToMd_long url c sha args hshaEq hcmp', endsNl_snoc _, ?_⟩
    have hareaNl : '\n' ∉ jsOrElse (c.type.subtitle.map capitalizeEachWord) (jstr "General") := by
      rcases hsubCases with hsubEq | ⟨s, hsubEq⟩
      · rw [hsubEq]
        decide
      · rw [hsubEq]
        have hsNl : '\n' ∉ s := by
          rw [hsubEq] at hsub
          exact cleanStr_no_nl (by simpa [cleanOpt] using hsub)
        show '\n' ∉ jsOrElse (some (capitalizeEachWord s)) (jstr "General")
        simp only [jsOrElse]
        by_cases he : capitalizeEachWord s = []
        · rw [if_pos he]
          decide
        · rw [if_neg he]
          exact cap_no_nl hsNl
    have hbrNl : '\n' ∉ jsOrElse c.branches (jstr "N/a") := jsOrElse_no_nl hbr (by decide)
    have hshape : jstr "      &emsp;__Area__: "
        ++ jsOrElse (c.type.subtitle.map capitalizeEachWord) (jstr "General")
        ++ jstr "</br>\n      &emsp;__Message__: " ++ c.message
        ++ jstr "</br>\n      &emsp;__Branches Affected__: " ++ jsOrElse c.branches (jstr "N/a")
        ++ jstr "</br>\n      &emsp;__Author__: " ++ jsTemplate c.author
        ++ jstr "</br>\n      &emsp;__Committed__: " ++ jsTemplate c.age
        ++ jstr "</br>\n      &emsp;__Commit SHA__: " ++ shaWithUrlMd url sha args.commitHashLength
        ++ jstr "\n      "
        = (jstr "      &emsp;__Area__: "
            ++ (jsOrElse (c.type.subtitle.map capitalizeEachWord) (jstr "General")
              ++ jstr "</br>")) ++ '\n' ::
          ((jstr "      &emsp;__Message__: " ++ (c.message ++ jstr "</br>")) ++ '\n' ::
          ((jstr "      &emsp;__Branches Affected__: "
            ++ (jsOrElse c.branches (jstr "N/a") ++ jstr "</br>")) ++ '\n' ::
          ((jstr "      &emsp;__Author__: " ++ (jsTemplate c.author ++ jstr "</br>")) ++ '\n' ::
          ((jstr "      &emsp;__Committed__: " ++ (jsTemplate c.age ++ jstr "</br>")) ++ '\n' ::
          ((jstr "      &emsp;__Commit SHA__: "
            ++ shaWithUrlMd url sha args.commitHashLength) ++ '\n' :: jstr "      "))))) := by
      rw [show jstr "</br>\n      &emsp;__Message__: "
          = jstr "</br>" ++ '\n' :: jstr "      &emsp;__Message__: " from by decide,
        show jstr "</br>\n      &emsp;__Branches Affected__: "
          = jstr "</br>" ++ '\n' :: jstr "      &emsp;__Branches Affected__: " from by decide,
        show jstr "</br>\n      &emsp;__Author__: "
          = jstr "</br>" ++ '\n' :: jstr "      &emsp;__Author__: " from by decide,
        show jstr "</br>\n      &emsp;__Committed__: "
          = jstr "</br>" ++ '\n' :: jstr "      &emsp;__Committed__: " from by decide,
        show jstr "</br>\n      &emsp;__Commit SHA__: "
          = jstr "</br>" ++ '\n' :: jstr "      &emsp;__Commit SHA__: " from by decide,
        show jstr "\n      " = '\n' :: jstr "      " from by decide]
      simp
    rw [hshape, stripIndent_long _ _ _ _ _ _ hareaNl hmsgNl hbrNl hauthNl hageNl hlinkNl]
    rw [project_count_chunk _ _ (endsNlOrEmpty_join_lastNil _ (by rfl))]
    rw [project_count_join _ (by
      intro l hl
      simp only [List.mem_cons] at hl
      rcases hl with rfl | rfl | rfl | rfl | rfl | rfl | h
      · exact no_nl_cons (by decide)
          (no_nl_append (by decide) (no_nl_append hareaNl (by decide)))
      · exact no_nl_cons (by decide)
          (no_nl_append (by decide) (no_nl_append hmsgNl (by decide)))
      · exact no_nl_cons (by decide)
          (no_nl_append (by decide) (no_nl_append hbrNl (by decide)))
      · exact no_nl_cons (by decide)
          (no_nl_append (by decide) (no_nl_append hauthNl (by decide)))
      · exact no_nl_cons (by decide)
          (no_nl_append (by decide) (no_nl_append hageNl (by decide)))
      · exact no_nl_cons (by decide) (no_nl_append (by decide) hlinkNl)
      · simp at h
        rw [h]
        simp) (by simp)]
    rw [show projectHeadingCount (jstr "\n") = 0 from by decide]
    simp [List.filter_cons, php_head '&' _ (by decide), php_nil]

theorem commitsToMd_spec (url : JStr) (args : Args) (hu : cleanStr url = true) :
    ∀ cs : List Commit, cs.all commitOk = true →
      ∃ m, commitsToMd url cs args = some m ∧ EndsNlOrEmpty m
        ∧ projectHeadingCount m = 0 := by
  intro cs
  induction cs with
  | nil => exact fun _ => ⟨[], rfl, endsNlOrEmpty_nil, project_count_nil⟩
  | cons c rest ih =>
    intro hall
    simp only [List.all_cons, Bool.and_eq_true] at hall
    obtain ⟨m1, h1, e1, c1⟩ := commitToMd_spec url c args hu hall.1
    obtain ⟨m2, h2, e2, c2⟩ := ih hall.2
    refine ⟨m1 ++ m2, ?_, endsNlOrEmpty_append _ _ e1 e2, ?_⟩
    · show commitsToMd url (c :: rest) args = some (m1 ++ m2)
      unfold commitsToMd
      rw [h1, h2]
    · rw [project_count_chunk _ _ e1, c1, c2]

theorem repeatChar_no_nl (k : Nat) : '\n' ∉ repeatChar k := by
  intro hm
  have := List.eq_of_mem_replicate hm
  simp at this

theorem groupsToMd_spec (url : JStr) (args : Args) (level : Nat)
    (hu : cleanStr url = true) (hlev : 1 ≤ level) :
    ∀ groups : List (JStr × List Commit),
      groups.all (fun g => cleanStr g.1 && g.2.all commitOk) = true →
      ∃ m, groupsToMd url groups args level = some m ∧ EndsNlOrEmpty m
        ∧ projectHeadingCount m = 0 := by
  have hrc : repeatChar (level + 2) = '#' :: ('#' :: '#' :: repeatChar (level - 1)) := by
    unfold repeatChar
    rw [show level + 2 = (level - 1) + 1 + 1 + 1 from by omega]
    rw [List.replicate_succ, List.replicate_succ, List.replicate_succ]
  intro groups
  induction groups with
  | nil => exact fun _ => ⟨[], rfl, endsNlOrEmpty_nil, project_count_nil⟩
  | cons g rest ih =>
    intro hall
    simp only [List.all_cons, Bool.and_eq_true] at hall
    obtain ⟨⟨hty, hcs⟩, hrest⟩ := hall
    obtain ⟨m1, h1, e1, c1⟩ := commitsToMd_spec url args hu g.2 hcs
    obtain ⟨m2, h2, e2, c2⟩ := ih hrest
    have htyNl : '\n' ∉ g.1 := cleanStr_no_nl hty
    have hhsNl : '\n' ∉ ('#' :: '#' :: repeatChar (level - 1)) :=
      no_nl_cons (by decide) (no_nl_cons (by decide) (repeatChar_no_nl _))
    have hsi : stripIndent (jstr "\n      " ++ repeatChar (level + 2) ++ jstr " " ++ g.1
        ++ jstr "\n\n      ")
        = jjoin (jstr "\n")
            [[], ('#' :: ('#' :: '#' :: repeatChar (level - 1))) ++ jstr " " ++ g.1, [], []] := by
      rw [hrc]
      exact stripIndent_groupHeading _ _ hhsNl htyNl
    have hline2 : ('#' :: ('#' :: '#' :: repeatChar (level - 1))) ++ jstr " " ++ g.1
        = '#' :: '#' :: '#' :: (repeatChar (level - 1) ++ jstr " " ++ g.1) := by
      simp
    have chead : projectHeadingCount (jjoin (jstr "\n")
        [[], ('#' :: ('#' :: '#' :: repeatChar (level - 1))) ++ jstr " " ++ g.1, [], []]) = 0 := by
      rw [project_count_join _ (by
        intro l hl
        simp only [List.mem_cons] at hl
        rcases hl with rfl | rfl | rfl | h
        · simp
        · exact no_nl_append (no_nl_append (no_nl_cons (by decide) hhsNl) (by decide)) htyNl
        · simp
        · simp at h
          rw [h]
          simp) (by simp)]
      rw [List.filter_cons, List.filter_cons, List.filter_cons, List.filter_cons,
        List.filter_nil]
      simp only [php_nil, hline2, php_three_hashes, Bool.false_eq_true, if_false]
      rfl
    have ehead : EndsNlOrEmpty (jjoin (jstr "\n")
        [[], ('#' :: ('#' :: '#' :: repeatChar (level - 1))) ++ jstr " " ++ g.1, [], []]) :=
      endsNlOrEmpty_join_lastNil _ rfl
    refine ⟨stripIndent (jstr "\n      " ++ repeatChar (level + 2) ++ jstr " " ++ g.1
        ++ jstr "\n\n      ") ++ m1 ++ m2, ?_, ?_, ?_⟩
    · show groupsToMd url (g :: rest) args level = _
      cases g with
      | mk ty cs =>
        unfold groupsToMd
        rw [h1, h2]
    · rw [hsi]
      exact endsNlOrEmpty_append _ _ (endsNlOrEmpty_append _ _ ehead e1) e2
    · rw [hsi, project_count_chunk _ _ (endsNlOrEmpty_append _ _ ehead e1),
        project_count_chunk _ _ ehead, chead, c1, c2]

theorem repoToMd_spec1 (r : RepoReport) (args : Args) (hr : repoOk r = true) :
    ∃ m, repoToMd r args 1 = some m ∧ EndsNlOrEmpty m ∧ projectHeadingCount m = 0
      ∧ (jstr "# Project: " ++ r.repo ++ jstr "\n\n") <+: m := by
  simp only [repoOk, Bool.and_eq_true] at hr
  obtain ⟨⟨hrepo, hurl⟩, hgroups⟩ := hr
  have hrepoNl := cleanStr_no_nl hrepo
  have hurlNl := cleanStr_no_nl hurl
  obtain ⟨g, hg, eg, cg⟩ := groupsToMd_spec r.url args 1 hurl (by omega) r.commits hgroups
  have hsi1 : stripIndent (jstr "    " ++ repeatChar 1 ++ jstr " Project: " ++ r.repo
      ++ jstr "\n\n    [Link to the repo](" ++ r.url ++ jstr ")\n\n    ")
      = jjoin (jstr "\n") [('#' :: ([] : JStr)) ++ jstr " Project: " ++ r.repo, [],
          '[' :: (jstr "Link to the repo](" ++ (r.url ++ [')'])), [], []] := by
    rw [show repeatChar 1 = '#' :: ([] : JStr) from by decide]
    exact stripIndent_repoHeader [] r.repo r.url (by simp) hrepoNl hurlNl
  have hAnl : '\n' ∉ ('#' :: ([] : JStr)) ++ jstr " Project: " ++ r.repo :=
    no_nl_append (no_nl_append (by decide) (by decide)) hrepoNl
  have hCnl : '\n' ∉ '[' :: (jstr "Link to the repo](" ++ (r.url ++ [')'])) :=
    no_nl_cons (by decide) (no_nl_append (by decide) (no_nl_append hurlNl (by decide)))
  have hArw : ('#' :: ([] : JStr)) ++ jstr " Project: " ++ r.repo
      = '#' :: ' ' :: (jstr "Project: " ++ r.repo) := by
    rw [show jstr " Project: " = ' ' :: jstr "Project: " from by decide]
    simp
  have cmd1 : projectHeadingCount (jjoin (jstr "\n")
      [('#' :: ([] : JStr)) ++ jstr " Project: " ++ r.repo, [],
       '[' :: (jstr "Link to the repo](" ++ (r.url ++ [')'])), [], []]) = 0 := by
    rw [project_count_join _ (by
      intro l hl
      simp only [List.mem_cons] at hl
      rcases hl with rfl | rfl | rfl | rfl | h
      · exact hAnl
      · simp
      · exact hCnl
      · simp
      · simp at h
        rw [h]
        simp) (by simp)]
    rw [List.filter_cons, List.filter_cons, List.filter_cons, List.filter_cons,
      List.filter_cons, List.filter_nil]
    simp only [php_nil, hArw, php_hash_space, php_head '[' _ (by decide),
      Bool.false_eq_true, if_false]
    rfl
  have emd1 : EndsNlOrEmpty (jjoin (jstr "\n")
      [('#' :: ([] : JStr)) ++ jstr " Project: " ++ r.repo, [],
       '[' :: (jstr "Link to the repo](" ++ (r.url ++ [')'])), [], []]) :=
    endsNlOrEmpty_join_lastNil _ rfl
  have esum : EndsNlOrEmpty (if args.summaries then getSummarySection 2 else []) := by
    by_cases hs : args.summaries
    · rw [if_pos hs]
      exact Or.inr ⟨jstr "## Summary\n\n\x7b\x7bPlease fill in this summary\x7d\x7d\n", by decide⟩
    · rw [if_neg hs]
      exact endsNlOrEmpty_nil
  have csum : projectHeadingCount (if args.summaries then getSummarySection 2 else []) = 0 := by
    by_cases hs : args.summaries
    · rw [if_pos hs]
      decide
    · rw [if_neg hs]
      exact project_count_nil
  have hmd3 : stripIndent (jstr "    " ++ repeatChar 2 ++ jstr " Commits\n    ")
      = jstr "## Commits\n" := by decide
  have emd3 : EndsNlOrEmpty (jstr "## Commits\n") := Or.inr ⟨jstr "## Commits", by decide⟩
  have cmd3 : projectHeadingCount (jstr "## Commits\n") = 0 := by decide
  refine ⟨stripIndent (jstr "    " ++ repeatChar 1 ++ jstr " Project: " ++ r.repo
      ++ jstr "\n\n    [Link to the repo](" ++ r.url ++ jstr ")\n\n    ")
      ++ (if args.summaries then getSummarySection 2 else [])
      ++ stripIndent (jstr "    " ++ repeatChar 2 ++ jstr " Commits\n    ") ++ g,
    ?_, ?_, ?_, ?_⟩
  · show repoToMd r args 1 = _
    unfold repoToMd
    rw [hg]
    rfl
  · rw [hsi1, hmd3]
    exact endsNlOrEmpty_append _ _
      (endsNlOrEmpty_append _ _ (endsNlOrEmpty_append _ _ emd1 esum) emd3) eg
  · rw [hsi1, hmd3,
      project_count_chunk _ _ (endsNlOrEmpty_append _ _ (endsNlOrEmpty_append _ _ emd1 esum) emd3),
      project_count_chunk _ _ (endsNlOrEmpty_append _ _ emd1 esum),
      project_count_chunk _ _ emd1, cmd1, csum, cmd3, cg]
  · rw [hsi1, hmd3]
    have hjoin : jjoin (jstr "\n")
        [('#' :: ([] : JStr)) ++ jstr " Project: " ++ r.repo, [],
         '[' :: (jstr "Link to the repo](" ++ (r.url ++ [')'])), [], []]
        = (jstr "# Project: " ++ r.repo ++ jstr "\n\n")
          ++ ('[' :: (jstr "Link to the repo](" ++ (r.url ++ [')'])) ++ jstr "\n\n") := by
      rw [show jstr "# Project: " = '#' :: jstr " Project: " from by decide,
        show jstr "\n\n" = '\n' :: '\n' :: ([] : JStr) from by decide,
        show jstr "\n" = ['\n'] from by decide]
      simp [jjoin]
    rw [hjoin]
    rw [show ((jstr "# Project: " ++ r.repo ++ jstr "\n\n")
          ++ ('[' :: (jstr "Link to the repo](" ++ (r.url ++ [')'])) ++ jstr "\n\n"))
        ++ (if args.summaries then getSummarySection 2 else [])
        ++ jstr "## Commits\n" ++ g
        = (jstr "# Project: " ++ r.repo ++ jstr "\n\n")
          ++ (('[' :: (jstr "Link to the repo](" ++ (r.url ++ [')'])) ++ jstr "\n\n")
            ++ ((if args.summaries then getSummarySection 2 else [])
              ++ (jstr "## Commits\n" ++ g))) from by simp]
    exact List.prefix_append _ _

theorem repoToMd_spec2 (r : RepoReport) (args : Args) (hr : repoOk r = true) :
    ∃ m, repoToMd r args 2 = some m ∧ EndsNlOrEmpty m ∧ projectHeadingCount m = 1 := by
  simp only [repoOk, Bool.and_eq_true] at hr
  obtain ⟨⟨hrepo, hurl⟩, hgroups⟩ := hr
  have hrepoNl := cleanStr_no_nl hrepo
  have hurlNl := cleanStr_no_nl hurl
  obtain ⟨g, hg, eg, cg⟩ := groupsToMd_spec r.url args 2 hurl (by omega) r.commits hgroups
  have hsi1 : stripIndent (jstr "    " ++ repeatChar 2 ++ jstr " Project: " ++ r.repo
      ++ jstr "\n\n    [Link to the repo](" ++ r.url ++ jstr ")\n\n    ")
      = jjoin (jstr "\n") [('#' :: ('#' :: ([] : JStr))) ++ jstr " Project: " ++ r.repo, [],
          '[' :: (jstr "Link to the repo](" ++ (r.url ++ [')'])), [], []] := by
    rw [show repeatChar 2 = '#' :: ('#' :: ([] : JStr)) from by decide]
    exact stripIndent_repoHeader ('#' :: []) r.repo r.url (by simp) hrepoNl hurlNl
  have hAnl : '\n' ∉ ('#' :: ('#' :: ([] : JStr))) ++ jstr " Project: " ++ r.repo :=
    no_nl_append (no_nl_append (by decide) (by decide)) hrepoNl
  have hCnl : '\n' ∉ '[' :: (jstr "Link to the repo](" ++ (r.url ++ [')'])) :=
    no_nl_cons (by decide) (no_nl_append (by decide) (no_nl_append hurlNl (by decide)))
  have hArw : ('#' :: ('#' :: ([] : JStr))) ++ jstr " Project: " ++ r.repo
      = PROJECT_HEADING ++ r.repo := by
    rw [show PROJECT_HEADING = ('#' :: ('#' :: ([] : JStr))) ++ jstr " Project: " from by decide]
  have cmd1 : projectHeadingCount (jjoin (jstr "\n")
      [('#' :: ('#' :: ([] : JStr))) ++ jstr " Project: " ++ r.repo, [],
       '[' :: (jstr "Link to the repo](" ++ (r.url ++ [')'])), [], []]) = 1 := by
    rw [project_count_join _ (by
      intro l hl
      simp only [List.mem_cons] at hl
      rcases hl with rfl | rfl | rfl | rfl | h
      · exact hAnl
      · simp
      · exact hCnl
      · simp
      · simp at h
        rw [h]
        simp) (by simp)]
    rw [List.filter_cons, List.filter_cons, List.filter_cons, List.filter_cons,
      List.filter_cons, List.filter_nil]
    rw [hArw]
    simp only [php_nil, php_append, php_head '[' _ (by decide),
      Bool.false_eq_true, if_false, if_true]
    rfl
  have emd1 : EndsNlOrEmpty (jjoin (jstr "\n")
      [('#' :: ('#' :: ([] : JStr))) ++ jstr " Project: " ++ r.repo, [],
       '[' :: (jstr "Link to the repo](" ++ (r.url ++ [')'])), [], []]) :=
    endsNlOrEmpty_join_lastNil _ rfl
  have esum : EndsNlOrEmpty (if args.summaries then getSummarySection 3 else []) := by
    by_cases hs : args.summaries
    · rw [if_pos hs]
      exact Or.inr ⟨jstr "### Summary\n\n\x7b\x7bPlease fill in this summary\x7d\x7d\n", by decide⟩
    · rw [if_neg hs]
      exact endsNlOrEmpty_nil
  have csum : projectHeadingCount (if args.summaries then getSummarySection 3 else []) = 0 := by
    by_cases hs : args.summaries
    · rw [if_pos hs]
      decide
    · rw [if_neg hs]
      exact project_count_nil
  have hmd3 : stripIndent (jstr "    " ++ repeatChar 3 ++ jstr " Commits\n    ")
      = jstr "### Commits\n" := by decide
  have emd3 : EndsNlOrEmpty (jstr "### Commits\n") := Or.inr ⟨jstr "### Commits", by decide⟩
  have cmd3 : projectHeadingCount (jstr "### Commits\n") = 0 := by decide
  refine ⟨stripIndent (jstr "    " ++ repeatChar 2 ++ jstr " Project: " ++ r.repo
      ++ jstr "\n\n    [Link to the repo](" ++ r.url ++ jstr ")\n\n    ")
      ++ (if args.summaries then getSummarySection 3 else [])
      ++ stripIndent (jstr "    " ++ repeatChar 3 ++ jstr " Commits\n    ") ++ g,
    ?_, ?_, ?_⟩
  · show repoToMd r args 2 = _
    unfold repoToMd
    rw [hg]
    rfl
  · rw [hsi1, hmd3]
    exact endsNlOrEmpty_append _ _
      (endsNlOrEmpty_append _ _ (endsNlOrEmpty_append _ _ emd1 esum) emd3) eg
  · rw [hsi1, hmd3,
      project_count_chunk _ _ (endsNlOrEmpty_append _ _ (endsNlOrEmpty_append _ _ emd1 esum) emd3),
      project_count_chunk _ _ (endsNlOrEmpty_append _ _ emd1 esum),
      project_count_chunk _ _ emd1, cmd1, csum, cmd3, cg]

theorem reposLoop_spec2 (args : Args) :
    ∀ repos : List RepoReport, repos.all repoOk = true →
      ∃ m, reposLoop repos args 2 = some m ∧ EndsNlOrEmpty m
        ∧ projectHeadingCount m = repos.length := by
  intro repos
  induction repos with
  | nil => exact fun _ => ⟨[], rfl, endsNlOrEmpty_nil, project_count_nil⟩
  | cons r rest ih =>
    intro hall
    simp only [List.all_cons, Bool.and_eq_true] at hall
    obtain ⟨m1, h1, e1, c1⟩ := repoToMd_spec2 r args hall.1
    obtain ⟨m2, h2, e2, c2⟩ := ih hall.2
    refine ⟨m1 ++ jstr "\n" ++ m2, ?_, ?_, ?_⟩
    · show reposLoop (r :: rest) args 2 = _
      unfold reposLoop
      rw [h1, h2]
    · exact endsNlOrEmpty_append _ _ (endsNl_snoc m1) e2
    · rw [project_count_chunk _ _ (endsNl_snoc m1), project_count_chunk _ _ e1, c1, c2,
        show projectHeadingCount (jstr "\n") = 0 from by decide]
      simp
      omega

/-- Claim C6: the markdown renderer emits a level-1 document-title heading
and renders every repository one level deeper (as a `## Project: ` heading,
exactly one per repository) precisely when the bundle holds more than one
repository; with exactly one repository the document opens with the
repository's own level-1 `# Project: ` heading, contains no level-2
project heading, and the configured document title is not used at all. -/
theorem c6_document_structure (b : ReportBundle) (args : Args) (hb : bundleOk b = true) :
    (1 < b.repos.length →
      ∃ md, reposToMd b args = some md
        ∧ (jstr "# " ++ b.docTitle ++ jstr "\n\n") <+: md
        ∧ projectHeadingCount md = b.repos.length)
    ∧ (∀ r, b.repos = [r] →
      ∃ md, reposToMd b args = some md
        ∧ (jstr "# Project: " ++ r.repo ++ jstr "\n\n") <+: md
        ∧ projectHeadingCount md = 0
        ∧ ∀ t, reposToMd { b with docTitle := t } args = reposToMd b args) := by
  simp only [bundleOk, Bool.and_eq_true] at hb
  obtain ⟨hdoc, hrepos⟩ := hb
  have hdocNl : '\n' ∉ b.docTitle := cleanStr_no_nl hdoc
  constructor
  · intro hlen
    obtain ⟨body, hbody, ebody, cbody⟩ := reposLoop_spec2 args b.repos hrepos
    have hd : reposToMd b args = some (repeatChar 1 ++ jstr " " ++ b.docTitle ++ jstr "\n\n"
        ++ (if args.summaries then getSummarySection 2 else []) ++ body) := by
      unfold reposToMd
      rw [if_pos hlen, hbody]
      rfl
    have esum : EndsNlOrEmpty (if args.summaries then getSummarySection 2 else []) := by
      by_cases hs : args.summaries
      · rw [if_pos hs]
        exact Or.inr ⟨jstr "## Summary\n\n\x7b\x7bPlease fill in this summary\x7d\x7d\n", by decide⟩
      · rw [if_neg hs]
        exact endsNlOrEmpty_nil
    have csum : projectHeadingCount (if args.summaries then getSummarySection 2 else []) = 0 := by
      by_cases hs : args.summaries
      · rw [if_pos hs]
        decide
      · rw [if_neg hs]
        exact project_count_nil
    refine ⟨_, hd, ?_, ?_⟩
    · rw [show repeatChar 1 ++ jstr " " = jstr "# " from by decide]
      rw [show jstr "# " ++ b.docTitle ++ jstr "\n\n"
          ++ (if args.summaries then getSummarySection 2 else []) ++ body
          = (jstr "# " ++ b.docTitle ++ jstr "\n\n")
            ++ ((if args.summaries then getSummarySection 2 else []) ++ body) from by simp]
      exact List.prefix_append _ _
    · rw [show repeatChar 1 ++ jstr " " = jstr "# " from by decide]
      have hsplitTop : jstr "# " ++ b.docTitle ++ jstr "\n\n"
          = (jstr "# " ++ b.docTitle ++ jstr "\n") ++ jstr "\n" := by
        rw [show jstr "\n\n" = jstr "\n" ++ jstr "\n" from by decide]
        simp
      have hXnl : '\n' ∉ jstr "# " ++ b.docTitle :=
        no_nl_append (by decide) hdocNl
      have etop : EndsNlOrEmpty (jstr "# " ++ b.docTitle ++ jstr "\n\n") := by
        rw [hsplitTop]
        exact endsNl_snoc _
      have ctop : projectHeadingCount (jstr "# " ++ b.docTitle ++ jstr "\n\n") = 0 := by
        rw [hsplitTop, project_count_chunk _ _ (endsNl_snoc _),
          show projectHeadingCount (jstr "\n") = 0 from by decide]
        rw [show jstr "# " ++ b.docTitle ++ jstr "\n" = (jstr "# " ++ b.docTitle) ++ jstr "\n"
          from by simp]
        rw [count_single_line _ hXnl (by
          rw [show jstr "# " ++ b.docTitle = '#' :: ' ' :: b.docTitle from by
            rw [show jstr "# " = '#' :: ' ' :: ([] : List Char) from by decide]
            simp]
          exact php_hash_space _)]
      rw [project_count_chunk _ _ (endsNlOrEmpty_append _ _ etop esum),
        project_count_chunk _ _ etop, ctop, csum, cbody]
      omega
  · intro r hEq
    have hrOk : repoOk r = true := by
      rw [hEq] at hrepos
      simpa using hrepos
    obtain ⟨m1, h1, e1, c1, p1⟩ := repoToMd_spec1 r args hrOk
    have hne : ¬ (1 < b.repos.length) := by
      rw [hEq]
      simp
    have hcall : reposToMd b args = some (m1 ++ jstr "\n" ++ []) := by
      unfold reposToMd
      rw [if_neg hne, hEq]
      unfold reposLoop
      rw [h1]
      rfl
    refine ⟨_, hcall, ?_, ?_, ?_⟩
    · exact p1.trans ⟨jstr "\n" ++ [], by simp⟩
    · rw [project_count_chunk _ _ (endsNl_snoc m1), project_count_chunk _ _ e1, c1,
        show projectHeadingCount (jstr "\n") = 0 from by decide, project_count_nil]
    · intro t
      unfold reposToMd
      rw [show ({ b with docTitle := t } : ReportBundle).repos = b.repos from rfl]
      rw [if_neg hne, if_neg hne]

/-- Sample repository report used by the renderer witness. -/
def sampleRepoA : RepoReport :=
  { url := jstr "https://h/a.git"
    repo := jstr "A"
    commits := [(jstr "Fixes", [fixCommitA])] }

/-- Second sample repository report used by the renderer witness. -/
def sampleRepoB : RepoReport :=
  { url := jstr "https://h/b.git"
    repo := jstr "B"
    commits := [(jstr "Features", [featCommit])] }

/-- Two-repository bundle for the renderer witness. -/
def sampleBundleTwo : ReportBundle :=
  { docTitle := jstr "Org", repos := [sampleRepoA, sampleRepoB] }

/-- One-repository bundle for the renderer witness. -/
def sampleBundleOne : ReportBundle :=
  { docTitle := jstr "Org", repos := [sampleRepoA] }

/-- Rendering options for the renderer witness. -/
def sampleArgs : Args :=
  { summaries := false, compactCommits := true, commitHashLength := 7 }

/-- Witness for C6 at a concrete two-repository bundle and a concrete
one-repository bundle. -/
theorem c6_witness :
    (∃ md, reposToMd sampleBundleTwo sampleArgs = some md
      ∧ (jstr "# " ++ sampleBundleTwo.docTitle ++ jstr "\n\n") <+: md
      ∧ projectHeadingCount md = sampleBundleTwo.repos.length)
    ∧ (∃ md, reposToMd sampleBundleOne sampleArgs = some md
      ∧ (jstr "# Project: " ++ sampleRepoA.repo ++ jstr "\n\n") <+: md
      ∧ projectHeadingCount md = 0
      ∧ ∀ t, reposToMd { sampleBundleOne with docTitle := t } sampleArgs
          = reposToMd sampleBundleOne sampleArgs) :=
  ⟨(c6_document_structure sampleBundleTwo sampleArgs (by decide)).1 (by decide),
   (c6_document_structure sampleBundleOne sampleArgs (by decide)).2 sampleRepoA rfl⟩
